import Mathlib

/-!
Verification of the SAGE core ingestion pipeline (src/sage_core).

This development shallowly embeds the ingestion pipeline of SAGE
(src/sage_core/chunking.py, embeddings.py, ingestion.py, qdrant_utils.py)
and proves properties of it.  Python functions become Lean functions;
the vector store becomes an explicit `Store` value threaded through the
code; exceptions become `Except`; the I/O calls that can fail (scroll,
upsert, delete, the remote embedding request) are driven by explicit
outcome oracles so that failure at any stage can be analysed.

Numeric modelling notes.
Python's `int(words * 1.3)` (the whitespace token estimate of
`count_tokens`, chunking.py line 47) is modelled as the exact natural
computation `words * 13 / 10`; at every concrete input used below the
floating-point and the exact computation agree (checked by hand: 13*1.3
and 40*1.3 round to 16.9000…02 and 52.0000…07, truncating to 16 and 52).
`int(max_tokens * 2.5)` (truncate_to_tokens, line 61) is exact in binary
floating point, so `maxTokens * 25 / 10` is a faithful model.
Embedding vectors are abstracted to `List Int` since no claim depends on
their numeric content.
-/

namespace SAGE

/-- Truncation warning record as built by `process_markdown_chunks` and
`yield_safe_batches` (src/sage_core/chunking.py lines 107-113 and 315-321):
the affected chunk index, the size before and after truncation, the kind
("character" or "token") and the section title, if one was found. -/
structure TruncWarning where
  chunk_index : Nat
  original_size : Nat
  truncated_size : Nat
  truncation_type : String
  section_title : Option String
  deriving DecidableEq, Repr

/-- Splitter on whitespace runs over the character list, discarding empty
pieces; `acc` holds the current word reversed. -/
def splitWsGo : List Char → List Char → List String
  | [], acc => if acc.isEmpty then [] else [String.mk acc.reverse]
  | c :: cs, acc =>
    if c.isWhitespace then
      if acc.isEmpty then splitWsGo cs []
      else String.mk acc.reverse :: splitWsGo cs []
    else splitWsGo cs (c :: acc)

/-- Python `str.split()` with no arguments: split on whitespace runs,
discarding empty pieces.  Used by the fallback branch of `count_tokens`
(src/sage_core/chunking.py line 47). -/
def pyWords (s : String) : List String :=
  splitWsGo s.data []

/-- Splitter on newline characters over the character list, keeping empty
pieces (the semantics of `str.split('\n')`); `acc` holds the current line
reversed. -/
def splitNlGo : List Char → List Char → List String
  | [], acc => [String.mk acc.reverse]
  | c :: cs, acc =>
    if c = '\n' then String.mk acc.reverse :: splitNlGo cs []
    else splitNlGo cs (c :: acc)

/-- The lines of a string, split on `'\n'`. -/
def pyLines (s : String) : List String :=
  splitNlGo s.data []

/-- Python `str.strip()`: drop leading and trailing whitespace. -/
def pyStrip (s : String) : String :=
  String.mk (((s.data.dropWhile Char.isWhitespace).reverse.dropWhile Char.isWhitespace).reverse)

/-- `count_tokens` (src/sage_core/chunking.py lines 41-47), tokenizer-less
fallback branch: `int(len(text.split()) * 1.3)`, modelled exactly as
`words * 13 / 10` (see the header note on floating point). -/
def count_tokens (text : String) : Nat :=
  (pyWords text).length * 13 / 10

/-- `truncate_to_tokens` (src/sage_core/chunking.py lines 50-64),
tokenizer-less fallback branch: keep at most `int(max_tokens * 2.5)`
characters, appending `"..."` when the text was cut. -/
def truncate_to_tokens (text : String) (maxTokens : Nat) : String :=
  let charLimit := maxTokens * 25 / 10
  if text.length ≤ charLimit then text
  else String.mk (text.data.take charLimit) ++ "..."

/-- One entry of `chunks_data` in the pipeline: a dict with `text` and
`index` keys, plus the optional `truncation_warning` key that
`yield_safe_batches` adds when `track_warnings` is set
(src/sage_core/ingestion.py lines 547-550, chunking.py line 107). -/
structure ChunkItem where
  text : String
  index : Nat
  warning : Option TruncWarning
  deriving DecidableEq, Repr

/-- Estimated cost of one item: token count of its text plus the fixed
5-token overhead for the embedding-side text ("search_document: "),
src/sage_core/chunking.py line 90. -/
def itemCost (it : ChunkItem) : Nat :=
  count_tokens it.text + 5

/-- Matcher for one line of the regex `^#+\s+(.+?)$` used at
src/sage_core/chunking.py lines 104 and 306: a run of `#`, at least one
whitespace character, then a non-empty remainder; the captured group is
stripped.  When the remainder after the whitespace run is empty the regex
can still match by handing the last whitespace character to the group
(which then strips to ""), provided the run had at least two characters. -/
def headerTitleOfLine (l : String) : Option String :=
  let cs := l.data
  let hashes := cs.takeWhile (fun c => c = '#')
  let rest := cs.drop hashes.length
  let ws := rest.takeWhile Char.isWhitespace
  if hashes.isEmpty || ws.isEmpty then none
  else
    let body := rest.drop ws.length
    if body.isEmpty then
      if 2 ≤ ws.length then some "" else none
    else some (pyStrip (String.mk body))

/-- `re.search(r'^#+\s+(.+?)$', chunk, re.MULTILINE)` followed by
`.group(1).strip()`: the first line of the text that carries a markdown
header, with the header text stripped. -/
def extractSectionTitle (chunk : String) : Option String :=
  (pyLines chunk).findSome? headerTitleOfLine

/-- Oversize handling of one item inside `yield_safe_batches`
(src/sage_core/chunking.py lines 93-113): when the estimated cost exceeds
`max_tokens` the text is truncated to `max_tokens - 10` tokens and, when
`track_warnings` is set, a token-kind warning is attached recording the
estimates before and after (prefix overhead removed). -/
def truncateOversized (maxTokens : Nat) (trackW : Bool) (it : ChunkItem) : ChunkItem :=
  if count_tokens it.text + 5 > maxTokens then
    let safeLimit := maxTokens - 10
    let newText := truncate_to_tokens it.text safeLimit
    let w : TruncWarning :=
      { chunk_index := it.index
        original_size := count_tokens it.text
        truncated_size := count_tokens newText
        truncation_type := "token"
        section_title := extractSectionTitle it.text }
    { it with text := newText, warning := if trackW then some w else it.warning }
  else it

/-- Accumulating loop of `yield_safe_batches`
(src/sage_core/chunking.py lines 84-125): `cur`/`curTok` are
`current_batch`/`current_tokens`; a batch is emitted when it is non-empty
and the next (possibly truncated) item would push it past `max_tokens`. -/
def yieldBatchesGo (maxTokens : Nat) (trackW : Bool) :
    List ChunkItem → List ChunkItem → Nat → List (List ChunkItem)
  | [], cur, _ => if cur.isEmpty then [] else [cur]
  | it :: rest, cur, curTok =>
    let it' := truncateOversized maxTokens trackW it
    let t := itemCost it'
    if ¬ cur.isEmpty ∧ curTok + t > maxTokens then
      cur :: yieldBatchesGo maxTokens trackW rest [it'] t
    else
      yieldBatchesGo maxTokens trackW rest (cur ++ [it']) (curTok + t)

/-- `yield_safe_batches(chunks_data, max_tokens, track_warnings)`
(src/sage_core/chunking.py lines 67-125), as the list of all yielded
batches. -/
def yield_safe_batches (items : List ChunkItem) (maxTokens : Nat) (trackW : Bool) :
    List (List ChunkItem) :=
  yieldBatchesGo maxTokens trackW items [] 0

/-- Summed estimated token cost of a batch. -/
def batchCost (b : List ChunkItem) : Nat :=
  (b.map itemCost).sum

/-- The truncation marker appended by the final safety pass
(src/sage_core/chunking.py lines 202 and 311). -/
def truncMarker : String := "\n[truncated]"

/-- Final safety pass of `process_markdown_chunks`
(src/sage_core/chunking.py lines 299-330): whitespace-only chunks are
dropped; a chunk longer than `maxChars` is cut to its first
`maxChars - 20` characters plus the marker, and a character-kind warning
records the chunk's enumeration index, its original length, the size it
was cut to, and the section title found in the chunk. -/
def finalSafetyGo (maxChars : Nat) : Nat → List String → List String × List TruncWarning
  | _, [] => ([], [])
  | idx, chunk :: rest =>
    let next := finalSafetyGo maxChars (idx + 1) rest
    if pyStrip chunk ≠ "" then
      if chunk.length > maxChars then
        let truncated := String.mk (chunk.data.take (maxChars - 20)) ++ truncMarker
        let w : TruncWarning :=
          { chunk_index := idx
            original_size := chunk.length
            truncated_size := maxChars - 20
            truncation_type := "character"
            section_title := extractSectionTitle chunk }
        (truncated :: next.1, w :: next.2)
      else (chunk :: next.1, next.2)
    else next

/-- `process_markdown_chunks(text)` (src/sage_core/chunking.py lines
209-330).  The splitting stage (lines 233-297: code-fence isolation and
header/paragraph splitting) is taken as a parameter `splitStage`; the
final safety pass (lines 299-330) is modelled exactly by `finalSafetyGo`.
Theorems below quantify over `splitStage`, so they hold for every list of
chunks the splitting stage can produce. -/
def process_markdown_chunks (splitStage : String → List String) (maxChars : Nat)
    (text : String) : List String × List TruncWarning :=
  finalSafetyGo maxChars 0 (splitStage text)

/-- Failure shapes a remote embedding attempt can produce
(src/sage_core/embeddings.py): `requestErr` is `httpx.RequestError`
(network/connection failure), `statusErr` is `httpx.HTTPStatusError`
with the response's status code, `otherErr` is any other exception
(named by its Python class). -/
inductive HttpErr where
  | requestErr
  | statusErr (code : Nat)
  | otherErr (name : String)
  deriving DecidableEq, Repr

/-- `type(e).__name__` for the modelled exception shapes, as used when the
indexer wraps an embedding failure (src/sage_core/ingestion.py line 609). -/
def httpErrName : HttpErr → String
  | .requestErr => "RequestError"
  | .statusErr _ => "HTTPStatusError"
  | .otherErr n => n

/-- `is_transient_error` (src/sage_core/embeddings.py lines 95-125):
network errors are transient; 429/503/502/504 are transient; 401/400/404/403
are permanent; remaining 5xx are transient; everything else (including every
other 4xx and non-HTTP exceptions) falls through to permanent. -/
def is_transient_error : HttpErr → Bool
  | .requestErr => true
  | .statusErr code =>
    if code = 429 ∨ code = 503 ∨ code = 502 ∨ code = 504 then true
    else if code = 401 ∨ code = 400 ∨ code = 404 ∨ code = 403 then false
    else if 500 ≤ code ∧ code < 600 then true
    else false
  | .otherErr _ => false

/-- Observable outcome of a retried remote embedding call: the value
returned or exception raised (`none` when the loop body never returned,
which happens only for `max_retries = 0`), the number of attempts made,
and the list of backoff delays slept between attempts, in seconds. -/
structure RetryRun where
  result : Option (Except HttpErr (List (List Int)))
  attempts : Nat
  delays : List Nat
  deriving Repr

/-- Retry loop of `get_remote_embeddings_async_with_retry`
(src/sage_core/embeddings.py lines 190-217), with the outcome of the k-th
HTTP attempt supplied by `oracle k`: a success returns at once; a
permanent failure re-raises at once; a transient failure on the last
attempt re-raises; otherwise the loop sleeps `2 ** attempt` seconds and
tries again.  `remaining` counts the loop iterations left
(`max_retries - k` on entry), so `remaining = 0` is the loop falling
through without returning, which Python reaches only for
`max_retries = 0`. -/
def retryGo (oracle : Nat → Except HttpErr (List (List Int))) (maxRetries : Nat) :
    Nat → Nat → RetryRun
  | 0, _ => ⟨none, 0, []⟩
  | remaining + 1, k =>
    match oracle k with
    | .ok v => ⟨some (.ok v), 1, []⟩
    | .error e =>
      if ¬ is_transient_error e then ⟨some (.error e), 1, []⟩
      else if k = maxRetries - 1 then ⟨some (.error e), 1, []⟩
      else
        let r := retryGo oracle maxRetries remaining (k + 1)
        ⟨r.result, r.attempts + 1, 2 ^ k :: r.delays⟩

/-- `get_remote_embeddings_async_with_retry(client, texts, max_retries)`
(src/sage_core/embeddings.py lines 160-217): empty input returns `[]`
without any HTTP attempt; otherwise the retry loop runs from attempt 0. -/
def get_remote_embeddings_async_with_retry (texts : List String)
    (oracle : Nat → Except HttpErr (List (List Int))) (maxRetries : Nat) : RetryRun :=
  if texts.isEmpty then ⟨some (.ok []), 0, []⟩
  else retryGo oracle maxRetries maxRetries 0

/-- A `linked_files` entry `{library, version, file_path, filename}`
appended to duplicate points (src/sage_core/ingestion.py lines 490-495). -/
structure Link where
  library : String
  version : String
  file_path : String
  filename : String
  deriving DecidableEq, Repr

/-- Sparse vector (indices and values), qdrant `models.SparseVector`. -/
structure SparseVec where
  indices : List Nat
  values : List Int
  deriving DecidableEq, Repr

/-- One qdrant point as built by `_create_point`
(src/sage_core/ingestion.py lines 734-775): the deterministic id, the
named dense/sparse vectors, and the flat payload. -/
structure PointRec where
  id : String
  dense : List Int
  sparse : SparseVec
  content : String
  library : String
  version : String
  title : String
  file_path : String
  chunk_index : Nat
  total_chunks : Nat
  content_hash : String
  linked_files : List Link
  deriving DecidableEq, Repr

/-- The id key string `f"{library}:{version}:{filename}:{chunk_index}:{chunk_text[:100]}"`
hashed at src/sage_core/ingestion.py line 749. -/
def pointKeyString (library version filename : String) (chunkIndex : Nat)
    (chunkText : String) : String :=
  library ++ ":" ++ version ++ ":" ++ filename ++ ":" ++ toString chunkIndex ++ ":"
    ++ String.mk (chunkText.data.take 100)

/-- `_create_point` (src/sage_core/ingestion.py lines 734-775).  The MD5
hex digest (`get_content_hash`, line 98-100, an external `hashlib` call)
is passed in as the function `md5hex`; everything else is modelled
directly.  `linked_files` is initialised empty (line 773). -/
def create_point (md5hex : String → String) (chunk_text : String) (chunk_index : Nat)
    (dense_vec : List Int) (sparse_vec : SparseVec)
    (library version filename title file_path : String)
    (total_chunks : Nat) (content_hash : String) : PointRec :=
  { id := md5hex (pointKeyString library version filename chunk_index chunk_text)
    dense := dense_vec
    sparse := sparse_vec
    content := chunk_text
    library := library
    version := version
    title := title
    file_path := file_path
    chunk_index := chunk_index
    total_chunks := total_chunks
    content_hash := content_hash
    linked_files := [] }

/-- The vector store: qdrant's collection, modelled as the list of points
it holds, in insertion order. -/
structure Store where
  points : List PointRec
  deriving DecidableEq, Repr

/-- `client.scroll` with a `content_hash` exact-match filter and a limit,
as issued at src/sage_core/qdrant_utils.py line 221 and ingestion.py
line 472. -/
def scrollByHash (st : Store) (hash : String) (limit : Nat) : List PointRec :=
  (st.points.filter (fun p => p.content_hash == hash)).take limit

/-- Result shape of `check_duplicate_content`
(src/sage_core/qdrant_utils.py lines 239-244). -/
structure DupInfo where
  library : String
  version : String
  file_path : String
  title : String
  deriving DecidableEq, Repr

/-- `check_duplicate_content` (src/sage_core/qdrant_utils.py lines 195-250):
scroll for one point with the hash; any exception from the scroll is
caught, logged and turned into `None` (`scrollOk = false` models the
raising scroll); a hit returns the first matching point's payload fields. -/
def check_duplicate_content (scrollOk : Bool) (st : Store) (content_hash : String) :
    Option DupInfo :=
  if ¬ scrollOk then none
  else match scrollByHash st content_hash 1 with
    | [] => none
    | p :: _ => some ⟨p.library, p.version, p.file_path, p.title⟩

/-- `delete_points_by_ids` (src/sage_core/qdrant_utils.py lines 253-283):
an empty id list is a no-op; a raising delete call (`deleteOk = false`) is
caught and swallowed, leaving the store unchanged; otherwise every point
whose id is listed is removed. -/
def delete_points_by_ids (deleteOk : Bool) (st : Store) (ids : List String) : Store :=
  if ids.isEmpty then st
  else if deleteOk then ⟨st.points.filter (fun p => ! ids.contains p.id)⟩
  else st

/-- `client.set_payload(payload={"linked_files": links}, points=[pid])`
(src/sage_core/ingestion.py lines 501-505): overwrite the `linked_files`
payload of the point with the given id. -/
def setLinkedFiles (st : Store) (pid : String) (links : List Link) : Store :=
  ⟨st.points.map fun p => if p.id = pid then { p with linked_files := links } else p⟩

/-- Link-appending loop of the duplicate branch
(src/sage_core/ingestion.py lines 472-505): scroll up to 1000 points with
the hash; for each scrolled point, append the link to its `linked_files`
snapshot unless an identical link is already present. -/
def linkDuplicates (st : Store) (content_hash : String) (link : Link) : Store :=
  (scrollByHash st content_hash 1000).foldl
    (fun acc p =>
      if link ∈ p.linked_files then acc
      else setLinkedFiles acc p.id (p.linked_files ++ [link]))
    st

/-- qdrant upsert of one point: replace the point with the same id, or
append the point when the id is new. -/
def upsertOne (st : Store) (p : PointRec) : Store :=
  if st.points.any (fun q => q.id == p.id) then
    ⟨st.points.map fun q => if q.id = p.id then p else q⟩
  else ⟨st.points ++ [p]⟩

/-- `client.upsert(points=all_points)` (src/sage_core/ingestion.py
lines 687-691), applied atomically: all points or none. -/
def upsertPoints (st : Store) (pts : List PointRec) : Store :=
  pts.foldl upsertOne st

/-- Python's `\w` character class, modelled over ASCII: alphanumeric or
underscore. (Python's `\w` additionally accepts non-ASCII word characters;
the properties proved below - no path separators survive, the name ends
in ".md" - do not depend on that difference.) -/
def isPyWordChar (c : Char) : Bool := c.isAlphanum || c = '_'

/-- One character of `re.sub(r'[^\w\-_\.]', '_', filename)`
(src/sage_core/ingestion.py line 112): keep word characters, '-', '_'
and '.'; replace everything else (including '/' and '\\') with '_'. -/
def sanitizeChar (c : Char) : Char :=
  if isPyWordChar c || c = '-' || c = '.' then c else '_'

/-- `re.sub(r'[^\w\-_\.]', '_', filename)` (src/sage_core/ingestion.py
line 112). -/
def reSubUnsafe (filename : String) : String :=
  String.mk (filename.data.map sanitizeChar)

/-- Python `str.endswith(suf)`. -/
def pyEndsWith (s suf : String) : Bool :=
  suf.data.isSuffixOf s.data

/-- Index of the last occurrence of a character in a list
(Python `str.rfind`). -/
def rlastIdxOf (c : Char) : List Char → Option Nat
  | [] => none
  | x :: xs =>
    match rlastIdxOf c xs with
    | some i => some (i + 1)
    | none => if x = c then some 0 else none

/-- Python `pathlib.Path(s).stem` for a string without path separators:
`''`, `'.'` and `'..'` have empty names, hence empty stems; otherwise the
last extension is dropped when the last '.' is neither the first nor the
final character. -/
def pyPathStem (s : String) : String :=
  if s = "" ∨ s = "." ∨ s = ".." then ""
  else
    match rlastIdxOf '.' s.data with
    | some i => if 0 < i ∧ i < s.data.length - 1 then String.mk (s.data.take i) else s
    | none => s

/-- The `safe_name` computation of `save_uploaded_file`
(src/sage_core/ingestion.py lines 112-114): unsafe characters replaced,
then a forced `.md` extension (`Path(safe_name).stem + '.md'` unless the
substituted name already ends with `.md`). -/
def sanitize_filename (filename : String) : String :=
  let safeName := reSubUnsafe filename
  if pyEndsWith safeName ".md" then safeName else pyPathStem safeName ++ ".md"

/-- Where `save_uploaded_file` writes: `UPLOAD_DIR / library / version /
safe_name` (src/sage_core/ingestion.py lines 108-116), kept as components
so the theorem can speak about each of them. -/
structure SavedFile where
  root : String
  library : String
  version : String
  name : String
  deriving DecidableEq, Repr

/-- `save_uploaded_file(content, filename, library, version)`
(src/sage_core/ingestion.py lines 103-121); the returned `Path` as its
components, `UPLOAD_DIR` at its default `/app/uploads`. -/
def save_uploaded_file (library version filename : String) : SavedFile :=
  ⟨"/app/uploads", library, version, sanitize_filename filename⟩

/-- `str(file_path)` for a saved file. -/
def SavedFile.pathString (f : SavedFile) : String :=
  f.root ++ "/" ++ f.library ++ "/" ++ f.version ++ "/" ++ f.name

/-- Structured ingestion error (`IngestionError`,
src/sage_core/ingestion.py lines 65-95); `error_type` models the
`details["error_type"]` entry. -/
structure IngErr where
  message : String
  processing_step : String
  file_name : String
  error_type : String
  deriving DecidableEq, Repr

/-- Successful `_ingest_markdown` result (src/sage_core/ingestion.py
lines 443-447, 704-709). -/
structure IngestOk where
  chunks_indexed : Nat
  was_duplicate : Bool
  linked_to : Option String
  truncation_warnings : List TruncWarning
  deriving DecidableEq, Repr

/-- Audit trail of the store- and network-effecting calls one ingestion
makes, in order: remote dense-embedding requests, the upsert, and
rollback deletes. -/
inductive StoreEvent where
  | embedCall (texts : List String)
  | upsertCall (ids : List String)
  | deleteCall (ids : List String)
  deriving DecidableEq, Repr

/-- Everything one `_ingest_markdown` call can observably do: its return
value or structured error, the final store, and the effect trace. -/
structure IngestOut where
  result : Except IngErr IngestOk
  store : Store
  events : List StoreEvent
  deriving Repr

/-- Outcomes of the fallible collaborator calls during one ingestion:
whether the dedup scroll raises, whether the link scroll raises, the
result of the (already retried) remote dense-embedding call per batch,
whether the local sparse embedding raises per batch, whether the upsert
raises, and whether the rollback delete raises. -/
structure IngestOracles where
  dedupScrollOk : Bool
  linkScrollOk : Bool
  embedResult : Nat → List String → Except HttpErr (List (List Int))
  sparseOk : Nat → Bool
  sparseFn : String → SparseVec
  upsertOk : Bool
  deleteOk : Bool

/-- Fixed ingredients of the pipeline that are external to the claims:
the SHA-256 digest (`compute_content_hash`, an external `hashlib` call),
the MD5 digest used for point ids, `extract_title_from_content`
(src/sage_core/file_processing.py, YAML/regex based, external), the
chunk splitting stage of `process_markdown_chunks` (chunking.py lines
233-297), and the configured limits and prefix flag.  Theorems quantify
over all of these. -/
structure IngestConfig where
  sha256hex : String → String
  md5hex : String → String
  titleOf : String → String → String
  splitStage : String → List String
  maxChunkChars : Nat
  maxBatchTokens : Nat
  useNomic : Bool

/-- Input of one `_ingest_markdown` call. -/
structure IngestInput where
  markdown : String
  filename : String
  library : String
  version : String

/-- `compute_content_hash(markdown)` for this input
(src/sage_core/ingestion.py line 456). -/
def docContentHash (cfg : IngestConfig) (inp : IngestInput) : String :=
  cfg.sha256hex inp.markdown

/-- `str(file_path)` of the saved upload for this input
(src/sage_core/ingestion.py lines 468 and 524). -/
def docFilePath (inp : IngestInput) : String :=
  (save_uploaded_file inp.library inp.version inp.filename).pathString

/-- `extract_title_from_content(markdown, filename)` for this input
(src/sage_core/ingestion.py line 453). -/
def docTitle (cfg : IngestConfig) (inp : IngestInput) : String :=
  cfg.titleOf inp.markdown inp.filename

/-- `process_markdown_chunks(markdown)` for this input
(src/sage_core/ingestion.py line 528). -/
def docChunkPass (cfg : IngestConfig) (inp : IngestInput) :
    List String × List TruncWarning :=
  process_markdown_chunks cfg.splitStage cfg.maxChunkChars inp.markdown

/-- `chunks_data = [ {"text": chunk, "index": i} ... ]`
(src/sage_core/ingestion.py lines 547-550). -/
def docChunkItems (cfg : IngestConfig) (inp : IngestInput) : List ChunkItem :=
  (docChunkPass cfg inp).1.enum.map fun p => ChunkItem.mk p.2 p.1 none

/-- `chunk_batches = list(yield_safe_batches(chunks_data,
max_tokens=MAX_BATCH_TOKENS, track_warnings=True))`
(src/sage_core/ingestion.py line 560, remote embedding mode). -/
def docBatches (cfg : IngestConfig) (inp : IngestInput) : List (List ChunkItem) :=
  yield_safe_batches (docChunkItems cfg inp) cfg.maxBatchTokens true

/-- The token-kind warnings harvested from the batches
(src/sage_core/ingestion.py lines 563-567). -/
def docTokenWarnings (cfg : IngestConfig) (inp : IngestInput) : List TruncWarning :=
  (docBatches cfg inp).flatten.filterMap (fun it => it.warning)

/-- The batches after `del item["truncation_warning"]`
(src/sage_core/ingestion.py line 569). -/
def docCleanBatches (cfg : IngestConfig) (inp : IngestInput) : List (List ChunkItem) :=
  (docBatches cfg inp).map (fun b => b.map fun it => { it with warning := none })

/-- The texts actually sent to the embedding service for a batch: the
chunk texts, with the `"search_document: "` task instruction prepended
when `USE_NOMIC_PREFIX` is set (src/sage_core/ingestion.py lines
592-598). -/
def batchEmbedTexts (useNomic : Bool) (batch : List ChunkItem) : List String :=
  let batchTexts := batch.map (fun it => it.text)
  if useNomic then batchTexts.map (fun t => "search_document: " ++ t)
  else batchTexts

/-- The structured error the indexer wraps a dense-embedding failure
into (src/sage_core/ingestion.py lines 603-613). -/
def embedFailErr (inp : IngestInput) (e : HttpErr) : IngErr :=
  { message := "Embedding generation failed"
    processing_step := "embedding"
    file_name := inp.filename
    error_type := httpErrName e }

/-- The structured error the indexer wraps a sparse-embedding failure
into (src/sage_core/ingestion.py lines 616-624). -/
def sparseFailErr (inp : IngestInput) : IngErr :=
  { message := "Sparse embedding generation failed"
    processing_step := "embedding"
    file_name := inp.filename
    error_type := "SparseError" }

/-- The points built from one batch (src/sage_core/ingestion.py lines
615-642): the local sparse embedding of the unprefixed batch texts, then
`zip(batch, dense_vecs, sparse_vecs)` mapped through `_create_point`
(Python's `zip` stops at the shortest list, as `List.zip` does). -/
def batchPoints (cfg : IngestConfig) (sparseFn : String → SparseVec) (inp : IngestInput)
    (title filePath contentHash : String) (totalChunks : Nat)
    (batch : List ChunkItem) (denseVecs : List (List Int)) : List PointRec :=
  let batchTexts := batch.map (fun it => it.text)
  let sparseVecs := batchTexts.map sparseFn
  (batch.zip (denseVecs.zip sparseVecs)).map fun t =>
    create_point cfg.md5hex t.1.text t.1.index t.2.1 t.2.2
      inp.library inp.version inp.filename title filePath totalChunks contentHash

/-- Result of the per-batch embed-and-build loop: either all points, or
the structured error together with the points already constructed and
tracked (`all_points`/`point_ids` at the moment the exception is raised),
plus the trace of embedding calls issued. -/
structure BuildOut where
  result : Except (IngErr × List PointRec) (List PointRec)
  events : List StoreEvent

/-- The remote-mode batch loop of `_ingest_markdown`
(src/sage_core/ingestion.py lines 591-642): per batch, build the
(possibly prefixed) embedding texts, call the retried remote embedding,
then the local sparse embedding, and zip batch, dense and sparse into
points, tracking each point as it is built; an embedding failure raises
the structured error with `processing_step="embedding"`, carrying what
was tracked so far. -/
def buildPointsGo (cfg : IngestConfig) (o : IngestOracles) (inp : IngestInput)
    (title filePath contentHash : String) (totalChunks : Nat) :
    List (List ChunkItem) → Nat → List PointRec → List StoreEvent → BuildOut
  | [], _, acc, evs => ⟨.ok acc, evs⟩
  | batch :: rest, bi, acc, evs =>
    let embedTexts := batchEmbedTexts cfg.useNomic batch
    let evs' := evs ++ [.embedCall embedTexts]
    match o.embedResult bi embedTexts with
    | .error e => ⟨.error (embedFailErr inp e, acc), evs'⟩
    | .ok denseVecs =>
      if o.sparseOk bi then
        buildPointsGo cfg o inp title filePath contentHash totalChunks
          rest (bi + 1)
          (acc ++ batchPoints cfg o.sparseFn inp title filePath contentHash totalChunks
            batch denseVecs)
          evs'
      else ⟨.error (sparseFailErr inp, acc), evs'⟩

/-- The batch loop applied to this document's batches. -/
def docBuildOut (cfg : IngestConfig) (o : IngestOracles) (inp : IngestInput) : BuildOut :=
  buildPointsGo cfg o inp (docTitle cfg inp) (docFilePath inp) (docContentHash cfg inp)
    (docChunkPass cfg inp).1.length (docCleanBatches cfg inp) 0 [] []

/-- The points constructed and tracked by this run: all of them when the
loop finishes, the prefix built so far when it raises.  (Every constructed
point's id is appended to `point_ids` the moment it is built,
src/sage_core/ingestion.py lines 641-642.) -/
def docTracked (cfg : IngestConfig) (o : IngestOracles) (inp : IngestInput) :
    List PointRec :=
  match (docBuildOut cfg o inp).result with
  | .ok pts => pts
  | .error pr => pr.2

/-- The rollback-and-reraise logic of `_ingest_markdown`'s exception
handlers (src/sage_core/ingestion.py lines 711-731): when any point ids
were tracked, issue a best-effort delete for exactly those ids (a delete
failure is swallowed inside `delete_points_by_ids`), then propagate the
original structured error. -/
def rollbackAndFail (o : IngestOracles) (st : Store) (tracked : List PointRec)
    (e : IngErr) (evs : List StoreEvent) : IngestOut :=
  if tracked.isEmpty then ⟨.error e, st, evs⟩
  else
    let ids := tracked.map (fun p => p.id)
    ⟨.error e, delete_points_by_ids o.deleteOk st ids, evs ++ [.deleteCall ids]⟩

/-- `_ingest_markdown` (src/sage_core/ingestion.py lines 430-731), remote
embedding mode.  Dedup hit: save the upload, link every point sharing the
hash (the whole linking block is skipped when its scroll raises), return
the duplicate result.  Miss: save, chunk, batch, embed batch by batch
building points, then upsert all points atomically; any failure after
points were tracked rolls back exactly the tracked ids and propagates the
structured error. -/
def ingest_markdown (cfg : IngestConfig) (o : IngestOracles) (st : Store)
    (inp : IngestInput) : IngestOut :=
  let contentHash := docContentHash cfg inp
  match check_duplicate_content o.dedupScrollOk st contentHash with
  | some existing =>
    let link : Link := ⟨inp.library, inp.version, docFilePath inp, inp.filename⟩
    let st' := if o.linkScrollOk then linkDuplicates st contentHash link else st
    ⟨.ok ⟨0, true, some existing.file_path, []⟩, st', []⟩
  | none =>
    let chunks := (docChunkPass cfg inp).1
    if chunks.isEmpty then ⟨.ok ⟨0, false, none, []⟩, st, []⟩
    else
      let allWarnings := (docChunkPass cfg inp).2 ++ docTokenWarnings cfg inp
      let bo := docBuildOut cfg o inp
      match bo.result with
      | .error pr => rollbackAndFail o st pr.2 pr.1 bo.events
      | .ok allPoints =>
        if allPoints.isEmpty then ⟨.ok ⟨0, false, none, allWarnings⟩, st, bo.events⟩
        else
          let ids := allPoints.map (fun p => p.id)
          let evs := bo.events ++ [.upsertCall ids]
          if o.upsertOk then
            ⟨.ok ⟨allPoints.length, false, none, allWarnings⟩, upsertPoints st allPoints, evs⟩
          else
            rollbackAndFail o st allPoints
              { message := "Failed to index chunks in Qdrant"
                processing_step := "indexing"
                file_name := inp.filename
                error_type := "UpsertError" } evs

/-- One entry of the `failures` list of
`ingest_document_with_partial_failure` (src/sage_core/ingestion.py
lines 342-347). -/
structure FileFailure where
  file_name : String
  error : String
  processing_step : String
  error_type : String
  deriving DecidableEq, Repr

/-- Aggregate result of the ZIP branch of
`ingest_document_with_partial_failure` (src/sage_core/ingestion.py
lines 360-369). -/
structure ZipAggregate where
  success : Bool
  files_processed : Nat
  files_failed : Nat
  chunks_indexed : Nat
  failures : List FileFailure
  deriving DecidableEq, Repr

/-- The per-file loop of the ZIP branch of
`ingest_document_with_partial_failure` (src/sage_core/ingestion.py lines
324-369): each extracted file is ingested independently; a success adds
its chunk count and bumps `successes`; an `IngestionError` is captured
into `failures` and the loop continues.  The per-file pipeline
(`_ingest_markdown`, which only ever raises `IngestionError`, modelled
above) is supplied as `perFile : filename -> markdown -> outcome`. -/
def processZipFiles (perFile : String → String → Except IngErr Nat) :
    List (String × String) → Nat → Nat → List FileFailure → ZipAggregate
  | [], chunks, succ, fails => ⟨true, succ, fails.length, chunks, fails⟩
  | f :: rest, chunks, succ, fails =>
    match perFile f.1 f.2 with
    | .ok n => processZipFiles perFile rest (chunks + n) (succ + 1) fails
    | .error e =>
      processZipFiles perFile rest chunks succ
        (fails ++ [⟨f.1, e.message, e.processing_step, e.error_type⟩])

/-- The ZIP partial-success branch, starting from the extracted
`(filename, markdown)` entries (src/sage_core/ingestion.py lines 303-369;
archive extraction itself is external to the claims). -/
def ingest_document_with_partial_failure
    (perFile : String → String → Except IngErr Nat)
    (files : List (String × String)) : ZipAggregate :=
  processZipFiles perFile files 0 0 []

/-- Whether a per-file outcome is a success. -/
def exceptOk {ε α : Type} : Except ε α → Bool
  | .ok _ => true
  | .error _ => false

/-- The chunk count a per-file outcome contributes to the total. -/
def okChunks (r : Except IngErr Nat) : Nat :=
  match r with
  | .ok n => n
  | .error _ => 0

/-- The per-point effect of one iteration of the duplicate-linking loop
for scrolled point `r`: nothing when the link is already present in `r`'s
snapshot, otherwise every point with `r`'s id gets the appended list. -/
def stepUpd (link : Link) (r q : PointRec) : PointRec :=
  if link ∈ r.linked_files then q
  else if q.id = r.id then { q with linked_files := r.linked_files ++ [link] } else q

/-- The combined per-point effect of the duplicate-linking loop over the
scrolled points `R`: the effect of the first scrolled point carrying the
point's id, if any. -/
def compUpd (link : Link) (R : List PointRec) (q : PointRec) : PointRec :=
  match R.find? (fun r => r.id == q.id) with
  | some r => stepUpd link r q
  | none => q

/-- What the duplicate-linking loop does to each stored point (assuming
distinct ids): a scrolled point without the link gets it appended, every
other point - including any that already carries an identical link - is
untouched. -/
def dupUpd (st : Store) (contentHash : String) (link : Link) (p : PointRec) : PointRec :=
  if p ∈ scrollByHash st contentHash 1000 ∧ link ∉ p.linked_files
  then { p with linked_files := p.linked_files ++ [link] } else p

/-- Input exhibiting the `yield_safe_batches` cost-bound violation:
forty single-letter words, 79 characters, estimated at
`int(40 * 1.3) + 5 = 57` tokens. -/
def c2text : String :=
  "a a a a a a a a a a a a a a a a a a a a a a a a a a a a a a a a a a a a a a a a"

/-- An embedding attempt oracle that always fails with HTTP 503. -/
def c3oracle : Nat → Except HttpErr (List (List Int)) := fun _ => .error (.statusErr 503)

/-- An embedding attempt oracle failing twice with HTTP 503 and then
succeeding. -/
def c3oracle2 : Nat → Except HttpErr (List (List Int)) := fun k =>
  if k < 2 then .error (.statusErr 503) else .ok [[7]]

/-- A 35-character chunk used to exercise the final safety pass at a
30-character ceiling. -/
def c5chunk : String := String.mk (List.replicate 35 'x')

/-- A splitting stage producing the one oversized chunk. -/
def c5stage : String → List String := fun _ => [c5chunk]

/-- Texts agreeing on their first 100 characters but differing past them. -/
def c6textA : String := String.mk (List.replicate 100 'a' ++ ['x'])

/-- Second text of the pair: same first 100 characters, different tail. -/
def c6textB : String := String.mk (List.replicate 100 'a' ++ ['y'])

/-- Per-file outcome map used to exercise the partial-failure aggregation:
`bad.md` fails with a structured embedding error, everything else indexes
two chunks. -/
def c7perFile : String → String → Except IngErr Nat := fun name _ =>
  if name = "bad.md" then
    .error ⟨"Embedding generation failed", "embedding", "bad.md", "HTTPStatusError"⟩
  else .ok 2

/-- Archive entries: three good files and one failing file. -/
def c7files : List (String × String) :=
  [("a.md", "alpha"), ("b.md", "beta"), ("bad.md", "gamma"), ("c.md", "delta")]

/-- Concrete pipeline configuration for witness runs: injective stand-ins
for the digests, title = filename, one chunk per document, default limits,
no prefix. -/
def wCfg : IngestConfig :=
  { sha256hex := fun s => "sha:" ++ s
    md5hex := fun s => "md5:" ++ s
    titleOf := fun _ f => f
    splitStage := fun s => [s]
    maxChunkChars := 4000
    maxBatchTokens := 2000
    useNomic := false }

/-- Concrete all-success oracles for witness runs. -/
def wOracles : IngestOracles :=
  { dedupScrollOk := true
    linkScrollOk := true
    embedResult := fun _ ts => .ok (ts.map (fun _ => [0]))
    sparseOk := fun _ => true
    sparseFn := fun _ => ⟨[], []⟩
    upsertOk := true
    deleteOk := true }

/-- Concrete single-document input for witness runs. -/
def wInput : IngestInput :=
  { markdown := "hello world", filename := "a.md", library := "lib", version := "v1" }

/-- The empty store. -/
def emptyStore : Store := ⟨[]⟩

/-- The structured indexing error raised when the upsert fails on the
witness input. -/
def wUpsertErr : IngErr :=
  ⟨"Failed to index chunks in Qdrant", "indexing", "a.md", "UpsertError"⟩

/-- A store holding one already-indexed point whose `content_hash`
matches the witness input under `wCfg`. -/
def c4point : PointRec :=
  { id := "md5:orig"
    dense := [0]
    sparse := ⟨[], []⟩
    content := "hello world"
    library := "oldlib"
    version := "v0"
    title := "orig.md"
    file_path := "/app/uploads/oldlib/v0/orig.md"
    chunk_index := 0
    total_chunks := 1
    content_hash := "sha:hello world"
    linked_files := [] }

/-- A one-point store matching the witness input's content hash. -/
def c4store : Store := ⟨[c4point]⟩

/-- The duplicate info the dedup gate reports for `c4store`. -/
def c4info : DupInfo := ⟨"oldlib", "v0", "/app/uploads/oldlib/v0/orig.md", "orig.md"⟩

/-- The failure entry the partial-failure loop records for a file. -/
def failureEntry (perFile : String → String → Except IngErr Nat)
    (f : String × String) : Option FileFailure :=
  match perFile f.1 f.2 with
  | .ok _ => none
  | .error e => some ⟨f.1, e.message, e.processing_step, e.error_type⟩

/-! ## Theorems -/

/-- C2: the claim promises that every batch yielded by
`yield_safe_batches` has summed estimated cost at most `maxTokens` and
that a single truncated oversized item always fits in a batch by itself;
the function's own docstring promises the same bound.  The code violates
it on the tokenizer-less estimator: for `max_tokens = 20` and one item of
forty one-letter words (57 estimated tokens), the item is truncated to
`int((20 - 10) * 2.5) = 25` characters plus `"..."`, which re-estimates
to `int(13 * 1.3) + 5 = 21 > 20` tokens, and is emitted alone in a batch
of summed cost 21.  (The same overshoot happens at the default
`MAX_BATCH_TOKENS = 2000`: 3000 one-letter words truncate to 4975
characters, re-estimating to `int(2488 * 1.3) + 5 = 3239 > 2000`.) -/
theorem C2_truncated_item_still_exceeds_limit :
    (yield_safe_batches [⟨c2text, 0, none⟩] 20 true).map batchCost = [21] ∧ 20 < 21 := by
  constructor
  · decide
  · decide

/-- C6: the id built by `_create_point` is a pure function of
`(library, version, filename, chunkIndex, first 100 characters of the
chunk text)`: with those five agreeing, the ids agree whatever the
vectors, title, file path, chunk total, content hash, or text past the
first 100 characters are, and whichever (fixed) MD5 digest function is
plugged in - there is no randomness anywhere in the construction. -/
theorem C6_point_id_deterministic (md5hex : String → String)
    (library version filename : String) (chunkIndex : Nat) (t1 t2 : String)
    (h100 : t1.data.take 100 = t2.data.take 100)
    (d1 d2 : List Int) (s1 s2 : SparseVec) (title1 title2 fp1 fp2 : String)
    (tc1 tc2 : Nat) (ch1 ch2 : String) :
    (create_point md5hex t1 chunkIndex d1 s1 library version filename title1 fp1 tc1 ch1).id
      = (create_point md5hex t2 chunkIndex d2 s2 library version filename title2 fp2 tc2 ch2).id := by
  simp only [create_point, pointKeyString, h100]

/-- Witness for C6: two texts agreeing on their first 100 characters but
differing at position 101, built into points with different vectors,
titles, file paths, chunk totals and content hashes, still get the same
id. -/
theorem C6_point_id_deterministic_witness :
    c6textA.data.take 100 = c6textB.data.take 100
    ∧ (create_point (fun s => "md5:" ++ s) c6textA 3 [1] ⟨[1], [1]⟩
          "lib" "v1" "f.md" "titleA" "/p/a" 7 "hashA").id
        = (create_point (fun s => "md5:" ++ s) c6textB 3 [2] ⟨[2], [2]⟩
          "lib" "v1" "f.md" "titleB" "/p/b" 9 "hashB").id := by
  refine ⟨by decide, ?_⟩
  exact C6_point_id_deterministic (fun s => "md5:" ++ s) "lib" "v1" "f.md" 3
    c6textA c6textB (by decide) [1] [2] ⟨[1], [1]⟩ ⟨[2], [2]⟩
    "titleA" "titleB" "/p/a" "/p/b" 7 9 "hashA" "hashB"

/-- Full characterisation of the partial-failure loop, with the running
accumulators generalised. -/
theorem processZipFiles_characterisation (perFile : String → String → Except IngErr Nat) :
    ∀ (files : List (String × String)) (chunks succ : Nat) (fails : List FileFailure),
      processZipFiles perFile files chunks succ fails =
        ⟨true,
         succ + (files.filter (fun f => exceptOk (perFile f.1 f.2))).length,
         (fails ++ files.filterMap (failureEntry perFile)).length,
         chunks + (files.map (fun f => okChunks (perFile f.1 f.2))).sum,
         fails ++ files.filterMap (failureEntry perFile)⟩ := by
  intro files
  induction files with
  | nil => intro chunks succ fails; simp [processZipFiles]
  | cons f rest ih =>
    intro chunks succ fails
    cases hf : perFile f.1 f.2 with
    | ok n =>
      simp only [processZipFiles, hf]
      rw [ih]
      simp [hf, exceptOk, okChunks, failureEntry, ZipAggregate.mk.injEq]
      omega
    | error e =>
      simp only [processZipFiles, hf]
      rw [ih]
      simp [hf, exceptOk, okChunks, failureEntry, ZipAggregate.mk.injEq]

/-- Counting lemma: the failure entries are exactly the non-successes. -/
theorem length_filterMap_failureEntry (perFile : String → String → Except IngErr Nat) :
    ∀ files : List (String × String),
      (files.filterMap (failureEntry perFile)).length
        = (files.filter (fun f => ! exceptOk (perFile f.1 f.2))).length := by
  intro files
  induction files with
  | nil => rfl
  | cons f rest ih =>
    cases hf : perFile f.1 f.2 with
    | ok n => simp [failureEntry, exceptOk, hf, ih]
    | error e => simp [failureEntry, exceptOk, hf, ih]

/-- Counting lemma: successes and failures split the file list. -/
theorem length_filter_ok_add_not (perFile : String → String → Except IngErr Nat) :
    ∀ files : List (String × String),
      (files.filter (fun f => exceptOk (perFile f.1 f.2))).length
        + (files.filter (fun f => ! exceptOk (perFile f.1 f.2))).length = files.length := by
  intro files
  induction files with
  | nil => rfl
  | cons f rest ih =>
    cases hok : exceptOk (perFile f.1 f.2) <;> simp [hok, ← ih] <;> omega

/-- C7: the partial-success archive loop never aborts: with `n` extracted
entries of which `k` fail with a structured `IngestionError`, the call
reports `success = true`, `files_processed = n - k` (the successes),
`files_failed = k`, `chunks_indexed` the sum over the succeeding files,
and every failing file contributes its filename, error message and
processing step to the `failures` list. -/
theorem C7_partial_success_aggregation (perFile : String → String → Except IngErr Nat)
    (files : List (String × String)) :
    (ingest_document_with_partial_failure perFile files).success = true
    ∧ (ingest_document_with_partial_failure perFile files).files_processed
        = (files.filter (fun f => exceptOk (perFile f.1 f.2))).length
    ∧ (ingest_document_with_partial_failure perFile files).files_failed
        = (files.filter (fun f => ! exceptOk (perFile f.1 f.2))).length
    ∧ (ingest_document_with_partial_failure perFile files).files_processed
        + (ingest_document_with_partial_failure perFile files).files_failed = files.length
    ∧ (ingest_document_with_partial_failure perFile files).chunks_indexed
        = (files.map (fun f => okChunks (perFile f.1 f.2))).sum
    ∧ ∀ f ∈ files, ∀ e, perFile f.1 f.2 = .error e →
        (⟨f.1, e.message, e.processing_step, e.error_type⟩ : FileFailure)
          ∈ (ingest_document_with_partial_failure perFile files).failures := by
  have hchar := processZipFiles_characterisation perFile files 0 0 []
  unfold ingest_document_with_partial_failure
  rw [hchar]
  refine ⟨rfl, by simp, ?_, ?_, by simp, ?_⟩
  · simp [length_filterMap_failureEntry]
  · simp [length_filterMap_failureEntry, length_filter_ok_add_not]
  · intro f hf e he
    simp only [List.nil_append]
    exact List.mem_filterMap.mpr ⟨f, hf, by simp [failureEntry, he]⟩

/-- Witness for C7: three good files and one failing file aggregate to
three processed, one failed, and the failing file's entry is present. -/
theorem C7_partial_success_aggregation_witness :
    (("bad.md", "gamma") ∈ c7files)
    ∧ c7perFile "bad.md" "gamma"
        = .error ⟨"Embedding generation failed", "embedding", "bad.md", "HTTPStatusError"⟩
    ∧ (⟨"bad.md", "Embedding generation failed", "embedding", "HTTPStatusError"⟩ : FileFailure)
        ∈ (ingest_document_with_partial_failure c7perFile c7files).failures := by
  refine ⟨by decide, by rfl, ?_⟩
  exact (C7_partial_success_aggregation c7perFile c7files).2.2.2.2.2
    ("bad.md", "gamma") (by decide)
    ⟨"Embedding generation failed", "embedding", "bad.md", "HTTPStatusError"⟩ rfl

/-- Backoff-list bookkeeping: prepending this attempt's delay extends the
chain of doubling delays by one. -/
theorem delayChain (k n : Nat) :
    2 ^ k :: (List.range n).map (fun i => 2 ^ (k + 1 + i))
      = (List.range (n + 1)).map (fun i => 2 ^ (k + i)) := by
  rw [List.range_succ_eq_map]
  refine List.ext_get (by simp) ?_
  intro i h1 h2
  match i with
  | 0 => simp
  | j + 1 =>
    simp only [List.get_eq_getElem, List.getElem_cons_succ, List.getElem_map]
    congr 1
    omega

/-- A permanent failure at the current attempt returns it at once: one
attempt, no sleeps. -/
theorem retryGo_permanent (oracle : Nat → Except HttpErr (List (List Int)))
    (maxRetries remaining k : Nat) (e : HttpErr)
    (hrem : 0 < remaining) (he : oracle k = .error e)
    (ht : is_transient_error e = false) :
    retryGo oracle maxRetries remaining k = ⟨some (.error e), 1, []⟩ := by
  cases remaining with
  | zero => omega
  | succ r => simp [retryGo, he, ht]

/-- When every attempt fails transiently, the loop makes all remaining
attempts, sleeps the doubling delays, and re-raises the error of the last
attempt. -/
theorem retryGo_exhausts (oracle : Nat → Except HttpErr (List (List Int)))
    (maxRetries : Nat) (es : Nat → HttpErr)
    (hall : ∀ j, j < maxRetries →
      oracle j = .error (es j) ∧ is_transient_error (es j) = true) :
    ∀ (remaining k : Nat), remaining = maxRetries - k → k < maxRetries →
      retryGo oracle maxRetries remaining k =
        ⟨some (.error (es (maxRetries - 1))), maxRetries - k,
          (List.range (maxRetries - 1 - k)).map (fun i => 2 ^ (k + i))⟩ := by
  intro remaining
  induction remaining with
  | zero => intro k hrem hk; omega
  | succ r ih =>
    intro k hrem hk
    obtain ⟨hok, htr⟩ := hall k hk
    simp only [retryGo, hok]
    rw [if_neg (not_not_intro htr)]
    by_cases hlast : k = maxRetries - 1
    · rw [if_pos hlast]
      rw [RetryRun.mk.injEq]
      refine ⟨by rw [hlast], by omega, ?_⟩
      rw [show maxRetries - 1 - k = 0 from by omega]
      rfl
    · have hk1 : k + 1 < maxRetries := by omega
      have hrem' : r = maxRetries - (k + 1) := by omega
      have hrec := ih (k + 1) hrem' hk1
      rw [if_neg hlast, hrec]
      dsimp only
      rw [RetryRun.mk.injEq]
      refine ⟨rfl, by omega, ?_⟩
      rw [delayChain, show maxRetries - 1 - (k + 1) + 1 = maxRetries - 1 - k from by omega]

/-- When attempts before `j` fail transiently and attempt `j` succeeds,
the loop makes `j + 1` attempts in total with the doubling delays between
them and returns the value. -/
theorem retryGo_succeeds (oracle : Nat → Except HttpErr (List (List Int)))
    (maxRetries : Nat) (es : Nat → HttpErr) (v : List (List Int)) (j : Nat)
    (hj : j < maxRetries)
    (hfail : ∀ i, i < j → oracle i = .error (es i) ∧ is_transient_error (es i) = true)
    (hok : oracle j = .ok v) :
    ∀ (remaining k : Nat), remaining = maxRetries - k → k ≤ j →
      retryGo oracle maxRetries remaining k =
        ⟨some (.ok v), j + 1 - k, (List.range (j - k)).map (fun i => 2 ^ (k + i))⟩ := by
  intro remaining
  induction remaining with
  | zero => intro k hrem hk; omega
  | succ r ih =>
    intro k hrem hk
    by_cases hkj : k = j
    · subst hkj
      simp only [retryGo, hok]
      rw [RetryRun.mk.injEq]
      refine ⟨rfl, by omega, ?_⟩
      rw [show k - k = 0 from by omega]
      rfl
    · have hklt : k < j := by omega
      obtain ⟨hoe, htr⟩ := hfail k hklt
      have hlast : k ≠ maxRetries - 1 := by omega
      have hrem' : r = maxRetries - (k + 1) := by omega
      have hrec := ih (k + 1) hrem' (by omega)
      simp only [retryGo, hoe]
      rw [if_neg (not_not_intro htr), if_neg hlast, hrec]
      dsimp only
      rw [RetryRun.mk.injEq]
      refine ⟨rfl, by omega, ?_⟩
      rw [delayChain, show j - (k + 1) + 1 = j - k from by omega]

/-- C3 (amended): `is_transient_error` classifies exactly as the code
does - network request errors and HTTP 429/502/503/504 and the remaining
5xx are transient; 400/401/403/404 and every other 4xx are permanent -
and `get_remote_embeddings_async_with_retry` raises a permanent failure
after exactly one attempt with no sleeps, retries transient failures up
to the configured attempt count with delays `2^(k-1)` seconds after the
k-th failed attempt, and on exhaustion re-raises the last attempt's error
itself (which preserves the error's type but attaches no attempt count -
the claim's final clause does not hold, see the counterexample). -/
theorem C3_retry_classification_and_backoff :
    (∀ code, 400 ≤ code → code < 500 → code ≠ 429 →
        is_transient_error (.statusErr code) = false)
    ∧ is_transient_error .requestErr = true
    ∧ (∀ code, code = 429 ∨ code = 502 ∨ code = 503 ∨ code = 504 →
        is_transient_error (.statusErr code) = true)
    ∧ (∀ code, 500 ≤ code → code < 600 → is_transient_error (.statusErr code) = true)
    ∧ (∀ (texts : List String) oracle maxRetries e, texts ≠ [] → 0 < maxRetries →
        oracle 0 = .error e → is_transient_error e = false →
        get_remote_embeddings_async_with_retry texts oracle maxRetries
          = ⟨some (.error e), 1, []⟩)
    ∧ (∀ (texts : List String) oracle maxRetries (es : Nat → HttpErr), texts ≠ [] →
        0 < maxRetries →
        (∀ j, j < maxRetries → oracle j = .error (es j) ∧ is_transient_error (es j) = true) →
        get_remote_embeddings_async_with_retry texts oracle maxRetries
          = ⟨some (.error (es (maxRetries - 1))), maxRetries,
              (List.range (maxRetries - 1)).map (fun i => 2 ^ i)⟩)
    ∧ (∀ (texts : List String) oracle maxRetries (es : Nat → HttpErr) v j, texts ≠ [] →
        j < maxRetries →
        (∀ i, i < j → oracle i = .error (es i) ∧ is_transient_error (es i) = true) →
        oracle j = .ok v →
        get_remote_embeddings_async_with_retry texts oracle maxRetries
          = ⟨some (.ok v), j + 1, (List.range j).map (fun i => 2 ^ i)⟩) := by
  refine ⟨?_, rfl, ?_, ?_, ?_, ?_, ?_⟩
  · intro code h4 h5 h429
    simp only [is_transient_error]
    by_cases hb : code = 401 ∨ code = 400 ∨ code = 404 ∨ code = 403
    · rw [if_neg (by omega), if_pos hb]
    · rw [if_neg (by omega), if_neg hb, if_neg (by omega)]
  · rintro code (rfl | rfl | rfl | rfl) <;> rfl
  · intro code h5 h6
    simp only [is_transient_error]
    by_cases ha : code = 429 ∨ code = 503 ∨ code = 502 ∨ code = 504
    · rw [if_pos ha]
    · rw [if_neg ha, if_neg (by omega), if_pos (by omega)]
  · intro texts oracle maxRetries e hne hm h0 hperm
    unfold get_remote_embeddings_async_with_retry
    rw [if_neg (by simp [hne])]
    exact retryGo_permanent oracle maxRetries maxRetries 0 e hm h0 hperm
  · intro texts oracle maxRetries es hne hm hall
    unfold get_remote_embeddings_async_with_retry
    rw [if_neg (by simp [hne])]
    rw [retryGo_exhausts oracle maxRetries es hall maxRetries 0 (by omega) hm]
    rw [RetryRun.mk.injEq]
    refine ⟨rfl, by omega, ?_⟩
    rw [Nat.sub_zero]
    exact List.map_congr_left (fun i _ => by rw [Nat.zero_add])
  · intro texts oracle maxRetries es v j hne hj hfail hok
    unfold get_remote_embeddings_async_with_retry
    rw [if_neg (by simp [hne])]
    rw [retryGo_succeeds oracle maxRetries es v j hj hfail hok maxRetries 0 (by omega)
      (by omega)]
    rw [RetryRun.mk.injEq]
    refine ⟨rfl, by omega, ?_⟩
    rw [Nat.sub_zero]
    exact List.map_congr_left (fun i _ => by rw [Nat.zero_add])

/-- Witness for C3: an oracle failing transiently (HTTP 503) on attempts
1 and 2 and succeeding on attempt 3 makes the call succeed with exactly 3
attempts and the increasing delays 1s then 2s. -/
theorem C3_retry_classification_and_backoff_witness :
    get_remote_embeddings_async_with_retry ["x"] c3oracle2 3
      = ⟨some (.ok [[7]]), 3, [1, 2]⟩ := by
  have h := C3_retry_classification_and_backoff.2.2.2.2.2.2
  exact h ["x"] c3oracle2 3 (fun _ => .statusErr 503) [[7]] 2 (by simp) (by omega)
    (fun i hi => ⟨by simp [c3oracle2, hi], by rfl⟩) rfl

/-- C3 counterexample: the claim says exhausting all attempts raises an
error carrying the attempt count; the code re-raises the bare last
exception.  Exhausting 3 attempts and exhausting 5 attempts against an
always-503 service raise the identical error value `HTTPStatusError(503)`,
so the raised error cannot carry the attempt count. -/
theorem C3_counterexample_no_attempt_count :
    (get_remote_embeddings_async_with_retry ["x"] c3oracle 3).result
        = some (.error (.statusErr 503))
    ∧ (get_remote_embeddings_async_with_retry ["x"] c3oracle 5).result
        = some (.error (.statusErr 503)) :=
  ⟨rfl, rfl⟩

/-- String length distributes over append. -/
theorem strLength_append (a b : String) : (a ++ b).length = a.length + b.length := by
  show (a.data ++ b.data).length = a.data.length + b.data.length
  exact List.length_append _ _

/-- One-step unfolding of the final safety pass. -/
theorem finalSafetyGo_cons (maxChars idx : Nat) (chunk : String) (rest : List String) :
    finalSafetyGo maxChars idx (chunk :: rest) =
      if pyStrip chunk ≠ "" then
        if chunk.length > maxChars then
          ((String.mk (chunk.data.take (maxChars - 20)) ++ truncMarker)
              :: (finalSafetyGo maxChars (idx + 1) rest).1,
            ({ chunk_index := idx
               original_size := chunk.length
               truncated_size := maxChars - 20
               truncation_type := "character"
               section_title := extractSectionTitle chunk } : TruncWarning)
              :: (finalSafetyGo maxChars (idx + 1) rest).2)
        else (chunk :: (finalSafetyGo maxChars (idx + 1) rest).1,
              (finalSafetyGo maxChars (idx + 1) rest).2)
      else finalSafetyGo maxChars (idx + 1) rest := rfl

/-- Every chunk the final safety pass emits fits under the ceiling. -/
theorem finalSafetyGo_length_le (maxChars : Nat) (h20 : 20 ≤ maxChars) :
    ∀ (idx : Nat) (chunks : List String),
      ∀ c ∈ (finalSafetyGo maxChars idx chunks).1, c.length ≤ maxChars := by
  intro idx chunks
  induction chunks generalizing idx with
  | nil => intro c hc; simp [finalSafetyGo] at hc
  | cons chunk rest ih =>
    intro c hc
    rw [finalSafetyGo_cons] at hc
    split at hc
    next hstrip =>
      split at hc
      next hgt =>
        rcases List.mem_cons.mp hc with rfl | hmem
        · rw [strLength_append]
          have ht : (String.mk (chunk.data.take (maxChars - 20))).length ≤ maxChars - 20 := by
            show (chunk.data.take (maxChars - 20)).length ≤ maxChars - 20
            rw [List.length_take]
            exact min_le_left _ _
          have hm : truncMarker.length = 12 := rfl
          omega
        · exact ih (idx + 1) c hmem
      next hgt =>
        rcases List.mem_cons.mp hc with rfl | hmem
        · omega
        · exact ih (idx + 1) c hmem
    next hstrip => exact ih (idx + 1) c hc

/-- Every kept oversized chunk contributes its character-kind warning. -/
theorem finalSafetyGo_warning_mem (maxChars : Nat) :
    ∀ (chunks : List String) (idx i : Nat) (hi : i < chunks.length),
      pyStrip (chunks.get ⟨i, hi⟩) ≠ "" →
      maxChars < (chunks.get ⟨i, hi⟩).length →
      ({ chunk_index := idx + i
         original_size := (chunks.get ⟨i, hi⟩).length
         truncated_size := maxChars - 20
         truncation_type := "character"
         section_title := extractSectionTitle (chunks.get ⟨i, hi⟩) } : TruncWarning)
        ∈ (finalSafetyGo maxChars idx chunks).2 := by
  intro chunks
  induction chunks with
  | nil => intro idx i hi; exact absurd hi (by simp)
  | cons chunk rest ih =>
    intro idx i hi hstrip hlen
    cases i with
    | zero =>
      replace hstrip : pyStrip chunk ≠ "" := hstrip
      replace hlen : maxChars < chunk.length := hlen
      rw [finalSafetyGo_cons, if_pos hstrip, if_pos hlen]
      exact List.mem_cons_self _ _
    | succ i =>
      have hmem := ih (idx + 1) i (Nat.lt_of_succ_lt_succ hi) hstrip hlen
      have hadd : idx + (i + 1) = (idx + 1) + i := by omega
      rw [finalSafetyGo_cons, hadd]
      split
      · split
        · exact List.mem_cons_of_mem _ hmem
        · exact hmem
      · exact hmem

/-- C5: after the chunker's final safety pass every chunk's character
length is at most the hard ceiling `MAX_CHUNK_CHARS` (a truncated chunk
is its first `maxChars - 20` characters plus the 12-character
`"\n[truncated]"` marker), and every kept chunk that exceeded the ceiling
contributes a `TruncationWarning` of kind "character" recording its
chunk index, its original size, and the size it was cut to.  The
splitting stage that produces the pre-pass chunks is universally
quantified, so both facts hold for every input text. -/
theorem C5_final_pass_char_ceiling (splitStage : String → List String) (maxChars : Nat)
    (h20 : 20 ≤ maxChars) (text : String) :
    (∀ c ∈ (process_markdown_chunks splitStage maxChars text).1, c.length ≤ maxChars)
    ∧ (∀ i (hi : i < (splitStage text).length),
        pyStrip ((splitStage text).get ⟨i, hi⟩) ≠ "" →
        maxChars < ((splitStage text).get ⟨i, hi⟩).length →
        ({ chunk_index := i
           original_size := ((splitStage text).get ⟨i, hi⟩).length
           truncated_size := maxChars - 20
           truncation_type := "character"
           section_title := extractSectionTitle ((splitStage text).get ⟨i, hi⟩) } : TruncWarning)
          ∈ (process_markdown_chunks splitStage maxChars text).2) := by
  constructor
  · exact fun c hc => finalSafetyGo_length_le maxChars h20 0 (splitStage text) c hc
  · intro i hi hstrip hlen
    have h := finalSafetyGo_warning_mem maxChars (splitStage text) 0 i hi hstrip hlen
    simpa using h

/-- Witness for C5: a 35-character chunk against a 30-character ceiling
is recorded as truncated to 10 characters. -/
theorem C5_final_pass_char_ceiling_witness :
    20 ≤ 30
    ∧ ({ chunk_index := 0, original_size := 35, truncated_size := 10,
         truncation_type := "character", section_title := none } : TruncWarning)
        ∈ (process_markdown_chunks c5stage 30 "doc").2 := by
  refine ⟨by omega, ?_⟩
  exact (C5_final_pass_char_ceiling c5stage 30 (by omega) "doc").2 0 (by decide)
    (by decide) (by decide)

/-- Character-level fact: the substitution never leaves a path
separator. -/
theorem sanitizeChar_not_sep (c : Char) :
    sanitizeChar c ≠ '/' ∧ sanitizeChar c ≠ '\\' := by
  unfold sanitizeChar
  split
  case isTrue h =>
    constructor
    · rintro rfl; revert h; decide
    · rintro rfl; revert h; decide
  case isFalse h => exact ⟨by decide, by decide⟩

/-- Flattening the yielded batches gives back the items in order, each
possibly truncated: the scheduler reorders nothing and drops nothing. -/
theorem yieldBatchesGo_flatten (maxTokens : Nat) (trackW : Bool) :
    ∀ (items cur : List ChunkItem) (curTok : Nat),
      (yieldBatchesGo maxTokens trackW items cur curTok).flatten
        = cur ++ items.map (truncateOversized maxTokens trackW) := by
  intro items
  induction items with
  | nil =>
    intro cur curTok
    simp only [yieldBatchesGo]
    split
    next h => simp [List.isEmpty_iff.mp h]
    next h => simp
  | cons it rest ih =>
    intro cur curTok
    simp only [yieldBatchesGo, List.map_cons]
    split
    next h =>
      rw [List.flatten_cons, ih]
      simp
    next h =>
      rw [ih]
      simp

/-- Truncation preserves the item's chunk index. -/
theorem truncateOversized_index (maxTokens : Nat) (trackW : Bool) (it : ChunkItem) :
    (truncateOversized maxTokens trackW it).index = it.index := by
  unfold truncateOversized
  split <;> rfl

/-- The `index` keys of `chunks_data` are exactly `0, ..., n-1` in
original document order. -/
theorem docChunkItems_map_index (cfg : IngestConfig) (inp : IngestInput) :
    (docChunkItems cfg inp).map (fun it => it.index)
      = List.range (docChunkPass cfg inp).1.length := by
  unfold docChunkItems
  rw [List.map_map]
  exact List.enum_map_fst _

/-- Flattening the cleaned batches in batch order gives the chunk indices
`0, ..., n-1`: batches are formed and consumed in chunk-index order. -/
theorem docCleanBatches_flatten_index (cfg : IngestConfig) (inp : IngestInput) :
    (docCleanBatches cfg inp).flatten.map (fun it => it.index)
      = List.range (docChunkPass cfg inp).1.length := by
  unfold docCleanBatches
  rw [← List.map_flatten]
  unfold docBatches yield_safe_batches
  rw [List.map_map, yieldBatchesGo_flatten, List.nil_append, List.map_map]
  have hfuns : ((fun it => it.index) ∘ (fun it => { it with warning := none }))
      ∘ truncateOversized cfg.maxBatchTokens true
        = fun it : ChunkItem => it.index := by
    funext it
    exact truncateOversized_index _ _ it
  rw [hfuns]
  exact docChunkItems_map_index cfg inp

/-- The points built from one batch carry exactly the batch's chunk
indices, in order, provided the embedding service returned one vector per
text. -/
theorem batch_points_chunk_index (md5hex : String → String)
    (library version filename title filePath : String) (tc : Nat) (ch : String)
    (batch : List ChunkItem) (vs : List (List Int)) (ss : List SparseVec)
    (hvs : batch.length ≤ vs.length) (hss : batch.length ≤ ss.length) :
    ((batch.zip (vs.zip ss)).map fun t =>
        create_point md5hex t.1.text t.1.index t.2.1 t.2.2
          library version filename title filePath tc ch).map (fun p => p.chunk_index)
      = batch.map (fun it => it.index) := by
  rw [List.map_map]
  have hcomp : ((fun p : PointRec => p.chunk_index) ∘ fun t : ChunkItem × (List Int × SparseVec) =>
      create_point md5hex t.1.text t.1.index t.2.1 t.2.2
        library version filename title filePath tc ch)
      = (fun it : ChunkItem => it.index) ∘ Prod.fst := rfl
  rw [hcomp, ← List.map_map, List.map_fst_zip]
  rw [List.length_zip]
  omega

/-- Prefixing does not change how many texts a batch sends. -/
theorem batchEmbedTexts_length (useNomic : Bool) (batch : List ChunkItem) :
    (batchEmbedTexts useNomic batch).length = batch.length := by
  unfold batchEmbedTexts
  split <;> simp

/-- The points of one batch carry the batch's chunk indices in order,
provided the service returned at least one dense vector per item. -/
theorem batchPoints_chunk_index (cfg : IngestConfig) (sparseFn : String → SparseVec)
    (inp : IngestInput) (title filePath contentHash : String) (totalChunks : Nat)
    (batch : List ChunkItem) (denseVecs : List (List Int))
    (hv : batch.length ≤ denseVecs.length) :
    (batchPoints cfg sparseFn inp title filePath contentHash totalChunks
        batch denseVecs).map (fun p => p.chunk_index)
      = batch.map (fun it => it.index) := by
  unfold batchPoints
  exact batch_points_chunk_index cfg.md5hex inp.library inp.version inp.filename
    title filePath totalChunks contentHash batch denseVecs _ hv (by simp)

/-- One-step unfolding of the batch loop. -/
theorem buildPointsGo_cons (cfg : IngestConfig) (o : IngestOracles) (inp : IngestInput)
    (title filePath contentHash : String) (totalChunks : Nat)
    (batch : List ChunkItem) (rest : List (List ChunkItem)) (bi : Nat)
    (acc : List PointRec) (evs : List StoreEvent) :
    buildPointsGo cfg o inp title filePath contentHash totalChunks
        (batch :: rest) bi acc evs =
      match o.embedResult bi (batchEmbedTexts cfg.useNomic batch) with
      | .error e =>
        ⟨.error (embedFailErr inp e, acc),
          evs ++ [.embedCall (batchEmbedTexts cfg.useNomic batch)]⟩
      | .ok denseVecs =>
        if o.sparseOk bi then
          buildPointsGo cfg o inp title filePath contentHash totalChunks rest (bi + 1)
            (acc ++ batchPoints cfg o.sparseFn inp title filePath contentHash totalChunks
              batch denseVecs)
            (evs ++ [.embedCall (batchEmbedTexts cfg.useNomic batch)])
        else ⟨.error (sparseFailErr inp, acc),
          evs ++ [.embedCall (batchEmbedTexts cfg.useNomic batch)]⟩ := rfl

/-- When every dense-embedding call returns one vector per text and the
sparse embedding never raises, the batch loop succeeds, issues exactly
one embedding call per batch in order, and the finished point list
extends the accumulator with the batches' chunk indices in order. -/
theorem buildPointsGo_ok (cfg : IngestConfig) (o : IngestOracles) (inp : IngestInput)
    (title filePath contentHash : String) (totalChunks : Nat)
    (hembed : ∀ bi ts, ∃ vs, o.embedResult bi ts = .ok vs ∧ vs.length = ts.length)
    (hsparse : ∀ bi, o.sparseOk bi = true) :
    ∀ (batches : List (List ChunkItem)) (bi : Nat) (acc : List PointRec)
      (evs : List StoreEvent),
      ∃ pts, buildPointsGo cfg o inp title filePath contentHash totalChunks
            batches bi acc evs
          = ⟨.ok pts,
             evs ++ batches.map (fun b => .embedCall (batchEmbedTexts cfg.useNomic b))⟩
        ∧ pts.map (fun p => p.chunk_index)
            = acc.map (fun p => p.chunk_index)
              ++ batches.flatten.map (fun it => it.index) := by
  intro batches
  induction batches with
  | nil => intro bi acc evs; exact ⟨acc, by simp [buildPointsGo], by simp⟩
  | cons batch rest ih =>
    intro bi acc evs
    obtain ⟨vs, hvs, hlen⟩ := hembed bi (batchEmbedTexts cfg.useNomic batch)
    obtain ⟨pts, heq, hmap⟩ := ih (bi + 1)
      (acc ++ batchPoints cfg o.sparseFn inp title filePath contentHash totalChunks batch vs)
      (evs ++ [.embedCall (batchEmbedTexts cfg.useNomic batch)])
    refine ⟨pts, ?_, ?_⟩
    · rw [buildPointsGo_cons]
      simp only [hvs]
      rw [if_pos (hsparse bi), heq]
      simp
    · rw [hmap, List.map_append]
      rw [batchPoints_chunk_index cfg o.sparseFn inp title filePath contentHash totalChunks
        batch vs (by rw [hlen, batchEmbedTexts_length])]
      rw [List.flatten_cons, List.map_append, List.append_assoc]

/-- The batch loop reads only the embedding and sparse oracles, so
flipping the delete outcome changes nothing about it. -/
theorem buildPointsGo_deleteOk_irrel (cfg : IngestConfig) (o : IngestOracles)
    (b : Bool) (inp : IngestInput) (title filePath contentHash : String)
    (totalChunks : Nat) :
    ∀ (batches : List (List ChunkItem)) (bi : Nat) (acc : List PointRec)
      (evs : List StoreEvent),
      buildPointsGo cfg { o with deleteOk := b } inp title filePath contentHash totalChunks
          batches bi acc evs
        = buildPointsGo cfg o inp title filePath contentHash totalChunks
          batches bi acc evs := by
  intro batches
  induction batches with
  | nil => intro bi acc evs; rfl
  | cons batch rest ih =>
    intro bi acc evs
    rw [buildPointsGo_cons, buildPointsGo_cons]
    cases hv : o.embedResult bi (batchEmbedTexts cfg.useNomic batch) with
    | error e => rfl
    | ok denseVecs =>
      dsimp only
      by_cases hs : o.sparseOk bi = true
      · rw [if_pos hs, if_pos hs, ih]
      · rw [if_neg hs, if_neg hs]

/-- `docBuildOut` and `docTracked` ignore the delete outcome. -/
theorem docTracked_deleteOk_irrel (cfg : IngestConfig) (o : IngestOracles) (b : Bool)
    (inp : IngestInput) :
    docBuildOut cfg { o with deleteOk := b } inp = docBuildOut cfg o inp
    ∧ docTracked cfg { o with deleteOk := b } inp = docTracked cfg o inp := by
  have h := buildPointsGo_deleteOk_irrel cfg o b inp (docTitle cfg inp) (docFilePath inp)
    (docContentHash cfg inp) (docChunkPass cfg inp).1.length (docCleanBatches cfg inp) 0 [] []
  constructor
  · exact h
  · unfold docTracked docBuildOut
    unfold docBuildOut at h
    rw [h]

/-- Unfolding of `_ingest_markdown` in terms of the shared document
helpers. -/
theorem ingest_markdown_def (cfg : IngestConfig) (o : IngestOracles) (st : Store)
    (inp : IngestInput) :
    ingest_markdown cfg o st inp =
      match check_duplicate_content o.dedupScrollOk st (docContentHash cfg inp) with
      | some existing =>
        ⟨.ok ⟨0, true, some existing.file_path, []⟩,
          if o.linkScrollOk then
            linkDuplicates st (docContentHash cfg inp)
              ⟨inp.library, inp.version, docFilePath inp, inp.filename⟩
          else st,
          []⟩
      | none =>
        if (docChunkPass cfg inp).1.isEmpty then ⟨.ok ⟨0, false, none, []⟩, st, []⟩
        else
          match (docBuildOut cfg o inp).result with
          | .error pr => rollbackAndFail o st pr.2 pr.1 (docBuildOut cfg o inp).events
          | .ok allPoints =>
            if allPoints.isEmpty then
              ⟨.ok ⟨0, false, none, (docChunkPass cfg inp).2 ++ docTokenWarnings cfg inp⟩,
                st, (docBuildOut cfg o inp).events⟩
            else
              if o.upsertOk then
                ⟨.ok ⟨allPoints.length, false, none,
                    (docChunkPass cfg inp).2 ++ docTokenWarnings cfg inp⟩,
                  upsertPoints st allPoints,
                  (docBuildOut cfg o inp).events
                    ++ [.upsertCall (allPoints.map (fun p => p.id))]⟩
              else
                rollbackAndFail o st allPoints
                  ⟨"Failed to index chunks in Qdrant", "indexing", inp.filename,
                    "UpsertError"⟩
                  ((docBuildOut cfg o inp).events
                    ++ [.upsertCall (allPoints.map (fun p => p.id))]) := rfl

/-- The rollback helper with a non-empty tracked list: delete exactly the
tracked ids, record the call, propagate the original error. -/
theorem rollbackAndFail_ne (o : IngestOracles) (st : Store) (tracked : List PointRec)
    (e : IngErr) (evs : List StoreEvent) (h : tracked ≠ []) :
    rollbackAndFail o st tracked e evs =
      ⟨.error e, delete_points_by_ids o.deleteOk st (tracked.map (fun p => p.id)),
        evs ++ [.deleteCall (tracked.map (fun p => p.id))]⟩ := by
  unfold rollbackAndFail
  rw [if_neg (by simpa using h)]

/-- A successful delete leaves no point with a deleted id. -/
theorem mem_delete_points_true (st : Store) (ids : List String) (p : PointRec)
    (hp : p ∈ (delete_points_by_ids true st ids).points) : p.id ∉ ids := by
  unfold delete_points_by_ids at hp
  split at hp
  next hemp =>
    rw [List.isEmpty_iff.mp hemp]
    exact List.not_mem_nil _
  next hemp =>
    rw [if_pos rfl] at hp
    have h2 := (List.mem_filter.mp hp).2
    simpa using h2

/-- The delete call never adds points. -/
theorem mem_delete_points_subset (ok : Bool) (st : Store) (ids : List String)
    (p : PointRec) (hp : p ∈ (delete_points_by_ids ok st ids).points) :
    p ∈ st.points := by
  unfold delete_points_by_ids at hp
  split at hp
  · exact hp
  · split at hp
    · exact (List.mem_filter.mp hp).1
    · exact hp

/-- A fully successful non-duplicate run: the tracked points carry the
chunk indices `0, ..., n-1` in order, there are exactly `n` of them, and
the call returns `chunks_indexed = n`, upserts exactly the tracked
points, and issues one embedding call per batch followed by the upsert. -/
theorem ingest_markdown_success (cfg : IngestConfig) (o : IngestOracles) (st : Store)
    (inp : IngestInput)
    (hdup : check_duplicate_content o.dedupScrollOk st (docContentHash cfg inp) = none)
    (hchunks : (docChunkPass cfg inp).1 ≠ [])
    (hembed : ∀ bi ts, ∃ vs, o.embedResult bi ts = .ok vs ∧ vs.length = ts.length)
    (hsparse : ∀ bi, o.sparseOk bi = true)
    (hupsert : o.upsertOk = true) :
    (docTracked cfg o inp).map (fun p => p.chunk_index)
        = List.range (docChunkPass cfg inp).1.length
    ∧ (docTracked cfg o inp).length = (docChunkPass cfg inp).1.length
    ∧ ingest_markdown cfg o st inp =
        ⟨.ok ⟨(docChunkPass cfg inp).1.length, false, none,
              (docChunkPass cfg inp).2 ++ docTokenWarnings cfg inp⟩,
          upsertPoints st (docTracked cfg o inp),
          (docCleanBatches cfg inp).map (fun b =>
              StoreEvent.embedCall (batchEmbedTexts cfg.useNomic b))
            ++ [.upsertCall ((docTracked cfg o inp).map (fun p => p.id))]⟩ := by
  obtain ⟨pts, heq, hmap⟩ := buildPointsGo_ok cfg o inp (docTitle cfg inp) (docFilePath inp)
    (docContentHash cfg inp) (docChunkPass cfg inp).1.length hembed hsparse
    (docCleanBatches cfg inp) 0 [] []
  have hbo : docBuildOut cfg o inp =
      ⟨.ok pts, (docCleanBatches cfg inp).map (fun b =>
        StoreEvent.embedCall (batchEmbedTexts cfg.useNomic b))⟩ := by
    unfold docBuildOut
    rw [heq]
    simp
  have htracked : docTracked cfg o inp = pts := by
    unfold docTracked
    rw [hbo]
  have hmap' : pts.map (fun p => p.chunk_index)
      = List.range (docChunkPass cfg inp).1.length := by
    rw [hmap, docCleanBatches_flatten_index]
    simp
  have hlen : pts.length = (docChunkPass cfg inp).1.length := by
    have := congrArg List.length hmap'
    simpa using this
  have hne : pts ≠ [] := by
    intro hnil
    rw [hnil] at hlen
    have : (docChunkPass cfg inp).1.length = 0 := by simpa using hlen.symm
    exact hchunks (List.length_eq_zero.mp this)
  refine ⟨by rw [htracked]; exact hmap', by rw [htracked]; exact hlen, ?_⟩
  rw [ingest_markdown_def, hdup]
  dsimp only
  rw [if_neg (by simpa using hchunks), hbo]
  dsimp only
  rw [if_neg (by simpa using hne), if_pos hupsert, htracked, hlen]

/-- C8: for a non-duplicate document yielding `n` chunks, the chunk
indices assigned are exactly `0, ..., n-1` in document order with no
gaps; the batches flatten back to the chunks in chunk-index order; every
constructed point's `chunk_index` payload equals its chunk's ordinal, so
the final upserted point list carries `chunk_index` values
`0, ..., n-1` in order; and the call reports `chunks_indexed = n`. -/
theorem C8_chunk_order_preserved (cfg : IngestConfig) (o : IngestOracles) (st : Store)
    (inp : IngestInput)
    (hdup : check_duplicate_content o.dedupScrollOk st (docContentHash cfg inp) = none)
    (hchunks : (docChunkPass cfg inp).1 ≠ [])
    (hembed : ∀ bi ts, ∃ vs, o.embedResult bi ts = .ok vs ∧ vs.length = ts.length)
    (hsparse : ∀ bi, o.sparseOk bi = true)
    (hupsert : o.upsertOk = true) :
    (docChunkItems cfg inp).map (fun it => it.index)
        = List.range (docChunkPass cfg inp).1.length
    ∧ (docCleanBatches cfg inp).flatten.map (fun it => it.index)
        = List.range (docChunkPass cfg inp).1.length
    ∧ (docTracked cfg o inp).map (fun p => p.chunk_index)
        = List.range (docChunkPass cfg inp).1.length
    ∧ (ingest_markdown cfg o st inp).result
        = .ok ⟨(docChunkPass cfg inp).1.length, false, none,
            (docChunkPass cfg inp).2 ++ docTokenWarnings cfg inp⟩
    ∧ (ingest_markdown cfg o st inp).store
        = upsertPoints st (docTracked cfg o inp) := by
  obtain ⟨h1, h2, h3⟩ := ingest_markdown_success cfg o st inp hdup hchunks hembed
    hsparse hupsert
  exact ⟨docChunkItems_map_index cfg inp, docCleanBatches_flatten_index cfg inp, h1,
    by rw [h3], by rw [h3]⟩

/-- Witness for C8: a two-chunk document ingested against an empty store
with all-success oracles carries chunk indices `[0, 1]` through to the
upserted points. -/
theorem C8_chunk_order_preserved_witness :
    (docTracked { wCfg with splitStage := fun s => [s, s] } wOracles wInput).map
        (fun p => p.chunk_index) = [0, 1]
    ∧ (ingest_markdown { wCfg with splitStage := fun s => [s, s] } wOracles
        emptyStore wInput).result
        = .ok ⟨2, false, none, []⟩ := by
  have h := C8_chunk_order_preserved { wCfg with splitStage := fun s => [s, s] } wOracles
    emptyStore wInput rfl (by decide)
    (fun bi ts => ⟨ts.map (fun _ => [0]), rfl, by simp⟩) (fun _ => rfl) rfl
  exact ⟨h.2.2.1, h.2.2.2.1⟩

/-- C10: when the dedup-stage scroll raises, `check_duplicate_content`
swallows the error and reports not-found, so the document is treated as
new: the run returns `was_duplicate = false`, performs the embedding
work (an embedding call is issued), and indexes all `n` chunks instead of
failing the ingestion call - even if the store does contain the hash. -/
theorem C10_dedup_scroll_failure_treated_as_new (cfg : IngestConfig) (o : IngestOracles)
    (st : Store) (inp : IngestInput)
    (hscroll : o.dedupScrollOk = false)
    (hchunks : (docChunkPass cfg inp).1 ≠ [])
    (hembed : ∀ bi ts, ∃ vs, o.embedResult bi ts = .ok vs ∧ vs.length = ts.length)
    (hsparse : ∀ bi, o.sparseOk bi = true)
    (hupsert : o.upsertOk = true) :
    check_duplicate_content o.dedupScrollOk st (docContentHash cfg inp) = none
    ∧ (ingest_markdown cfg o st inp).result
        = .ok ⟨(docChunkPass cfg inp).1.length, false, none,
            (docChunkPass cfg inp).2 ++ docTokenWarnings cfg inp⟩
    ∧ (∃ ts, StoreEvent.embedCall ts ∈ (ingest_markdown cfg o st inp).events) := by
  have hdup : check_duplicate_content o.dedupScrollOk st (docContentHash cfg inp)
      = none := by
    unfold check_duplicate_content
    rw [hscroll]
    rfl
  obtain ⟨_, _, h3⟩ := ingest_markdown_success cfg o st inp hdup hchunks hembed
    hsparse hupsert
  refine ⟨hdup, by rw [h3], ?_⟩
  have hbne : docCleanBatches cfg inp ≠ [] := by
    intro hnil
    have := docCleanBatches_flatten_index cfg inp
    rw [hnil] at this
    have hlen0 : (docChunkPass cfg inp).1.length = 0 := by
      have := congrArg List.length this
      simpa using this.symm
    exact hchunks (List.length_eq_zero.mp hlen0)
  obtain ⟨b, bs, hb⟩ := List.exists_cons_of_ne_nil hbne
  refine ⟨batchEmbedTexts cfg.useNomic b, ?_⟩
  rw [h3]
  dsimp only
  rw [hb]
  simp

/-- Witness for C10: a store already holding the matching hash, but with
a raising dedup scroll, still runs the full pipeline and indexes the
chunk. -/
theorem C10_dedup_scroll_failure_treated_as_new_witness :
    check_duplicate_content false c4store (docContentHash wCfg wInput) = none
    ∧ (ingest_markdown wCfg { wOracles with dedupScrollOk := false } c4store
        wInput).result = .ok ⟨1, false, none, []⟩ := by
  have h := C10_dedup_scroll_failure_treated_as_new wCfg
    { wOracles with dedupScrollOk := false } c4store wInput rfl (by decide)
    (fun bi ts => ⟨ts.map (fun _ => [0]), rfl, by simp⟩) (fun _ => rfl) rfl
  exact ⟨h.1, h.2.1⟩

/-- The rollback helper always propagates the original error, whatever
the delete outcome. -/
theorem rollbackAndFail_result (o : IngestOracles) (st : Store) (tracked : List PointRec)
    (e : IngErr) (evs : List StoreEvent) :
    (rollbackAndFail o st tracked e evs).result = .error e := by
  unfold rollbackAndFail
  split <;> rfl

/-- The returned value or error of an ingestion is unchanged by whether
the rollback delete succeeds: a delete failure is swallowed and the
original error propagates. -/
theorem ingest_markdown_result_deleteOk_irrel (cfg : IngestConfig) (o : IngestOracles)
    (b : Bool) (st : Store) (inp : IngestInput) :
    (ingest_markdown cfg { o with deleteOk := b } st inp).result
      = (ingest_markdown cfg o st inp).result := by
  rw [ingest_markdown_def, ingest_markdown_def]
  dsimp only
  cases hc : check_duplicate_content o.dedupScrollOk st (docContentHash cfg inp) with
  | some info => rfl
  | none =>
    dsimp only
    by_cases hch : (docChunkPass cfg inp).1.isEmpty = true
    · rw [if_pos hch, if_pos hch]
    · rw [if_neg hch, if_neg hch, (docTracked_deleteOk_irrel cfg o b inp).1]
      cases hbr : (docBuildOut cfg o inp).result with
      | error pr =>
        dsimp only
        rw [rollbackAndFail_result, rollbackAndFail_result]
      | ok allPoints =>
        dsimp only
        by_cases hemp : allPoints.isEmpty = true
        · rw [if_pos hemp, if_pos hemp]
        · rw [if_neg hemp, if_neg hemp]
          by_cases hup : o.upsertOk = true
          · rw [if_pos hup, if_pos hup]
          · rw [if_neg hup, if_neg hup, rollbackAndFail_result, rollbackAndFail_result]

/-- Any failing run with a non-empty tracked list ends in a rollback:
the result is the original error, the final store is the tracked-ids
delete applied to the incoming store, and the trace ends with the
delete-by-ids call for exactly the tracked ids. -/
theorem ingest_markdown_error_run (cfg : IngestConfig) (o : IngestOracles) (st : Store)
    (inp : IngestInput) (e : IngErr)
    (hres : (ingest_markdown cfg o st inp).result = .error e)
    (htracked : docTracked cfg o inp ≠ []) :
    ∃ evs0, ingest_markdown cfg o st inp =
      ⟨.error e,
        delete_points_by_ids o.deleteOk st ((docTracked cfg o inp).map (fun p => p.id)),
        evs0 ++ [.deleteCall ((docTracked cfg o inp).map (fun p => p.id))]⟩ := by
  cases hc : check_duplicate_content o.dedupScrollOk st (docContentHash cfg inp) with
  | some info =>
    rw [ingest_markdown_def, hc] at hres
    exact absurd hres (by simp)
  | none =>
    by_cases hch : (docChunkPass cfg inp).1.isEmpty = true
    · rw [ingest_markdown_def, hc] at hres
      dsimp only at hres
      rw [if_pos hch] at hres
      exact absurd hres (by simp)
    · cases hbo : (docBuildOut cfg o inp).result with
      | error pr =>
        have htr : docTracked cfg o inp = pr.2 := by unfold docTracked; rw [hbo]
        have hout : ingest_markdown cfg o st inp
            = rollbackAndFail o st pr.2 pr.1 (docBuildOut cfg o inp).events := by
          rw [ingest_markdown_def, hc]
          dsimp only
          rw [if_neg hch, hbo]
        have hne : pr.2 ≠ [] := htr ▸ htracked
        have hrf := rollbackAndFail_ne o st pr.2 pr.1 (docBuildOut cfg o inp).events hne
        have he : pr.1 = e := by
          rw [hout, hrf] at hres
          simpa using hres
        refine ⟨(docBuildOut cfg o inp).events, ?_⟩
        rw [hout, hrf, htr, he]
      | ok allPoints =>
        have htr : docTracked cfg o inp = allPoints := by unfold docTracked; rw [hbo]
        have hne : allPoints ≠ [] := htr ▸ htracked
        by_cases hup : o.upsertOk = true
        · rw [ingest_markdown_def, hc] at hres
          dsimp only at hres
          rw [if_neg hch, hbo] at hres
          dsimp only at hres
          rw [if_neg (by simpa using hne), if_pos hup] at hres
          exact absurd hres (by simp)
        · have hout : ingest_markdown cfg o st inp
              = rollbackAndFail o st allPoints
                ⟨"Failed to index chunks in Qdrant", "indexing", inp.filename,
                  "UpsertError"⟩
                ((docBuildOut cfg o inp).events
                  ++ [.upsertCall (allPoints.map (fun p => p.id))]) := by
            rw [ingest_markdown_def, hc]
            dsimp only
            rw [if_neg hch, hbo]
            dsimp only
            rw [if_neg (by simpa using hne), if_neg hup]
          have hrf := rollbackAndFail_ne o st allPoints
            ⟨"Failed to index chunks in Qdrant", "indexing", inp.filename, "UpsertError"⟩
            ((docBuildOut cfg o inp).events
              ++ [.upsertCall (allPoints.map (fun p => p.id))]) hne
          have he : (⟨"Failed to index chunks in Qdrant", "indexing", inp.filename,
              "UpsertError"⟩ : IngErr) = e := by
            rw [hout, hrf] at hres
            simpa using hres
          refine ⟨(docBuildOut cfg o inp).events
            ++ [.upsertCall (allPoints.map (fun p => p.id))], ?_⟩
          rw [hout, hrf, htr, he]

/-- C1: when a single-document ingestion propagates a structured
`IngestionError` after one or more points were constructed (embeddings
succeeded but a later batch or the store upsert raised), every tracked
point id is submitted in one delete-by-ids call against the store before
the error propagates; if the delete succeeds, no point with a tracked id
remains in the store; the error path never adds points (the upsert is a
single atomic call, so a point of this document can only remain if it was
already present before the call); and a failure of the delete itself is
swallowed - flipping the delete outcome leaves the propagated error
unchanged, so the caller always sees the original error. -/
theorem C1_rollback_on_failure (cfg : IngestConfig) (o : IngestOracles) (st : Store)
    (inp : IngestInput) (e : IngErr)
    (hres : (ingest_markdown cfg o st inp).result = .error e)
    (htracked : docTracked cfg o inp ≠ []) :
    StoreEvent.deleteCall ((docTracked cfg o inp).map (fun p => p.id))
        ∈ (ingest_markdown cfg o st inp).events
    ∧ (o.deleteOk = true → ∀ p ∈ (ingest_markdown cfg o st inp).store.points,
        p.id ∉ (docTracked cfg o inp).map (fun q => q.id))
    ∧ (∀ q ∈ (ingest_markdown cfg o st inp).store.points, q ∈ st.points)
    ∧ (∀ b, (ingest_markdown cfg { o with deleteOk := b } st inp).result = .error e) := by
  obtain ⟨evs0, hout⟩ := ingest_markdown_error_run cfg o st inp e hres htracked
  refine ⟨?_, ?_, ?_, ?_⟩
  · rw [hout]
    exact List.mem_append_right _ (by simp)
  · intro hdel p hp
    rw [hout] at hp
    dsimp only at hp
    rw [hdel] at hp
    exact mem_delete_points_true st _ p hp
  · intro q hq
    rw [hout] at hq
    exact mem_delete_points_subset _ _ _ _ hq
  · intro b
    rw [ingest_markdown_result_deleteOk_irrel cfg o b st inp, hres]

/-- Witness for C1: with the upsert failing on a one-chunk document, the
run raises the indexing error, has tracked exactly one point, and its
trace contains the delete-by-ids rollback call. -/
theorem C1_rollback_on_failure_witness :
    (ingest_markdown wCfg { wOracles with upsertOk := false } emptyStore wInput).result
        = .error wUpsertErr
    ∧ docTracked wCfg { wOracles with upsertOk := false } wInput ≠ []
    ∧ StoreEvent.deleteCall
        ((docTracked wCfg { wOracles with upsertOk := false } wInput).map (fun p => p.id))
        ∈ (ingest_markdown wCfg { wOracles with upsertOk := false } emptyStore
            wInput).events := by
  refine ⟨rfl, by decide, ?_⟩
  exact (C1_rollback_on_failure wCfg { wOracles with upsertOk := false } emptyStore wInput
    wUpsertErr rfl (by decide)).1

/-- The per-point step update preserves the point's id. -/
theorem stepUpd_id (link : Link) (r q : PointRec) : (stepUpd link r q).id = q.id := by
  unfold stepUpd
  split
  · rfl
  · split <;> rfl

/-- One linking iteration acts pointwise on the store. -/
theorem linkStep_points (link : Link) (r : PointRec) (A : Store) :
    (if link ∈ r.linked_files then A
     else setLinkedFiles A r.id (r.linked_files ++ [link])).points
      = A.points.map (stepUpd link r) := by
  by_cases h : link ∈ r.linked_files
  · rw [if_pos h]
    have hm : A.points.map (stepUpd link r) = A.points.map id :=
      List.map_congr_left (fun q _ => by unfold stepUpd; rw [if_pos h]; rfl)
    rw [hm, List.map_id]
  · rw [if_neg h]
    show A.points.map _ = A.points.map (stepUpd link r)
    exact List.map_congr_left (fun q _ => by unfold stepUpd; rw [if_neg h])

/-- Composing the step for a fresh id past the remaining steps. -/
theorem compUpd_cons (link : Link) (r q : PointRec) (R' : List PointRec)
    (hrid : r.id ∉ R'.map (fun x => x.id)) :
    compUpd link R' (stepUpd link r q) = compUpd link (r :: R') q := by
  by_cases hq : r.id = q.id
  · have hfind : R'.find? (fun x => x.id == (stepUpd link r q).id) = none := by
      rw [List.find?_eq_none]
      intro x hx hbeq
      rw [stepUpd_id] at hbeq
      have hxq : x.id = q.id := by simpa using hbeq
      exact hrid (List.mem_map.mpr ⟨x, hx, by rw [hxq, hq]⟩)
    unfold compUpd
    rw [hfind, List.find?_cons_of_pos _ (by simpa using hq)]
  · have hstep : stepUpd link r q = q := by
      unfold stepUpd
      split
      · rfl
      · rw [if_neg (fun hh => hq hh.symm)]
    unfold compUpd
    rw [hstep, List.find?_cons_of_neg _ (by simpa using hq)]

/-- The linking fold acts pointwise on the store when the scrolled ids
are distinct. -/
theorem linkFold_points (link : Link) :
    ∀ (R : List PointRec) (A : Store), (R.map (fun r => r.id)).Nodup →
      (R.foldl (fun acc p =>
          if link ∈ p.linked_files then acc
          else setLinkedFiles acc p.id (p.linked_files ++ [link])) A).points
        = A.points.map (compUpd link R) := by
  intro R
  induction R with
  | nil =>
    intro A _
    have hm : A.points.map (compUpd link []) = A.points.map id :=
      List.map_congr_left (fun q _ => rfl)
    rw [List.foldl_nil, hm, List.map_id]
  | cons r R' ih =>
    intro A hnd
    rw [List.foldl_cons]
    obtain ⟨hrid, hnd'⟩ := List.nodup_cons.mp hnd
    have hstep := linkStep_points link r A
    rw [ih _ hnd']
    rw [hstep, List.map_map]
    exact List.map_congr_left (fun q _ => compUpd_cons link r q R' hrid)

/-- The scrolled points form a sublist of the store. -/
theorem scrollByHash_sublist (st : Store) (h : String) (limit : Nat) :
    (scrollByHash st h limit).Sublist st.points :=
  (List.take_sublist _ _).trans (List.filter_sublist _)

/-- Scrolled points are store points. -/
theorem scrollByHash_mem (st : Store) (h : String) (limit : Nat) (r : PointRec)
    (hr : r ∈ scrollByHash st h limit) : r ∈ st.points :=
  (scrollByHash_sublist st h limit).subset hr

/-- Distinct store ids give distinct scrolled ids. -/
theorem scrollByHash_ids_nodup (st : Store) (h : String) (limit : Nat)
    (hnd : (st.points.map (fun p => p.id)).Nodup) :
    ((scrollByHash st h limit).map (fun p => p.id)).Nodup :=
  List.Nodup.sublist ((scrollByHash_sublist st h limit).map _) hnd

/-- Full characterisation of the duplicate-linking loop: each stored
point is updated by `dupUpd` - the link is appended exactly to the
scrolled points not already carrying it. -/
theorem linkDuplicates_points (st : Store) (h : String) (link : Link)
    (hnd : (st.points.map (fun p => p.id)).Nodup) :
    (linkDuplicates st h link).points = st.points.map (dupUpd st h link) := by
  unfold linkDuplicates
  rw [linkFold_points link (scrollByHash st h 1000) st (scrollByHash_ids_nodup st h 1000 hnd)]
  refine List.map_congr_left (fun p hp => ?_)
  by_cases hmem : p ∈ scrollByHash st h 1000
  · have hsome : ((scrollByHash st h 1000).find? (fun r => r.id == p.id)).isSome := by
      rw [List.find?_isSome]
      exact ⟨p, hmem, by simp⟩
    obtain ⟨r, hr⟩ := Option.isSome_iff_exists.mp hsome
    have hrid : r.id = p.id := by simpa using List.find?_some hr
    have hrmem : r ∈ st.points := scrollByHash_mem st h 1000 r (List.mem_of_find?_eq_some hr)
    have hrp : r = p := List.inj_on_of_nodup_map hnd hrmem hp hrid
    have hfind : (scrollByHash st h 1000).find? (fun r => r.id == p.id) = some p := by
      rw [hr, hrp]
    unfold compUpd
    rw [hfind]
    dsimp only
    unfold stepUpd dupUpd
    by_cases hl : link ∈ p.linked_files
    · rw [if_pos hl, if_neg (fun hc => hc.2 hl)]
    · rw [if_neg hl, if_pos rfl, if_pos ⟨hmem, hl⟩]
  · have hfind : (scrollByHash st h 1000).find? (fun r => r.id == p.id) = none := by
      rw [List.find?_eq_none]
      intro r hrR hbeq
      have hrid : r.id = p.id := by simpa using hbeq
      have hrmem : r ∈ st.points := scrollByHash_mem st h 1000 r hrR
      have hrp : r = p := List.inj_on_of_nodup_map hnd hrmem hp hrid
      exact hmem (hrp ▸ hrR)
    unfold compUpd dupUpd
    rw [hfind]
    dsimp only
    rw [if_neg (fun hc => hmem hc.1)]

/-- The linking update preserves the point's id. -/
theorem dupUpd_id (st : Store) (h : String) (link : Link) (p : PointRec) :
    (dupUpd st h link p).id = p.id := by
  unfold dupUpd
  split <;> rfl

/-- The linking update preserves the point's content hash. -/
theorem dupUpd_hash (st : Store) (h : String) (link : Link) (p : PointRec) :
    (dupUpd st h link p).content_hash = p.content_hash := by
  unfold dupUpd
  split <;> rfl

/-- C4: a duplicate hit short-circuits the rest of the pipeline - the
run makes no embedding call and no upsert (its effect trace is empty) -
and returns `chunksIndexed = 0`, `wasDuplicate = true` and `linkedTo`
equal to the existing document's file path.  The store keeps exactly the
same point ids, so the number of points under the content hash is
unchanged; each point's content hash is untouched, its link list is
either unchanged or extended by exactly the one new link record (only
when that identical link was absent), and a point already carrying the
identical link is left as it was (idempotent linking). -/
theorem C4_duplicate_short_circuit (cfg : IngestConfig) (o : IngestOracles) (st : Store)
    (inp : IngestInput) (info : DupInfo)
    (hdup : check_duplicate_content o.dedupScrollOk st (docContentHash cfg inp) = some info)
    (hlink : o.linkScrollOk = true)
    (hnd : (st.points.map (fun p => p.id)).Nodup) :
    (ingest_markdown cfg o st inp).result = .ok ⟨0, true, some info.file_path, []⟩
    ∧ (ingest_markdown cfg o st inp).events = []
    ∧ (ingest_markdown cfg o st inp).store.points.map (fun p => p.id)
        = st.points.map (fun p => p.id)
    ∧ ((ingest_markdown cfg o st inp).store.points.filter
          (fun p => p.content_hash == docContentHash cfg inp)).length
        = (st.points.filter (fun p => p.content_hash == docContentHash cfg inp)).length
    ∧ (∀ p ∈ st.points, ∀ q ∈ (ingest_markdown cfg o st inp).store.points,
        q.id = p.id →
          q.content_hash = p.content_hash
          ∧ (q.linked_files = p.linked_files
             ∨ ((⟨inp.library, inp.version, docFilePath inp, inp.filename⟩ : Link)
                  ∉ p.linked_files
                ∧ q.linked_files = p.linked_files
                    ++ [⟨inp.library, inp.version, docFilePath inp, inp.filename⟩]))
          ∧ ((⟨inp.library, inp.version, docFilePath inp, inp.filename⟩ : Link)
                ∈ p.linked_files → q.linked_files = p.linked_files)) := by
  have hstore : (ingest_markdown cfg o st inp).store
      = linkDuplicates st (docContentHash cfg inp)
          ⟨inp.library, inp.version, docFilePath inp, inp.filename⟩ := by
    rw [ingest_markdown_def, hdup]
    dsimp only
    rw [if_pos hlink]
  have hres : (ingest_markdown cfg o st inp).result
      = .ok ⟨0, true, some info.file_path, []⟩ := by
    rw [ingest_markdown_def, hdup]
  have hevs : (ingest_markdown cfg o st inp).events = [] := by
    rw [ingest_markdown_def, hdup]
  have hpts := linkDuplicates_points st (docContentHash cfg inp)
    ⟨inp.library, inp.version, docFilePath inp, inp.filename⟩ hnd
  refine ⟨hres, hevs, ?_, ?_, ?_⟩
  · rw [hstore, hpts, List.map_map]
    exact List.map_congr_left (fun p _ => dupUpd_id _ _ _ p)
  · rw [hstore, hpts, List.filter_map]
    rw [List.filter_congr (fun p _ => by rw [Function.comp_apply, dupUpd_hash])]
    rw [List.length_map]
  · intro p hp q hq hid
    rw [hstore, hpts] at hq
    obtain ⟨p', hp', hq'⟩ := List.mem_map.mp hq
    have hpp : p' = p := by
      apply List.inj_on_of_nodup_map hnd hp' hp
      rw [← hid, ← hq', dupUpd_id]
    rw [← hq', hpp]
    unfold dupUpd
    by_cases hc : p ∈ scrollByHash st (docContentHash cfg inp) 1000
        ∧ (⟨inp.library, inp.version, docFilePath inp, inp.filename⟩ : Link)
          ∉ p.linked_files
    · rw [if_pos hc]
      exact ⟨rfl, Or.inr ⟨hc.2, rfl⟩, fun hl => absurd hl hc.2⟩
    · rw [if_neg hc]
      exact ⟨rfl, Or.inl rfl, fun _ => rfl⟩

/-- Witness for C4: re-uploading content whose hash is already indexed
in a one-point store returns the duplicate result pointing at the
original file, with an empty effect trace. -/
theorem C4_duplicate_short_circuit_witness :
    check_duplicate_content true c4store (docContentHash wCfg wInput) = some c4info
    ∧ (ingest_markdown wCfg wOracles c4store wInput).result
        = .ok ⟨0, true, some "/app/uploads/oldlib/v0/orig.md", []⟩
    ∧ (ingest_markdown wCfg wOracles c4store wInput).events = [] := by
  have h := C4_duplicate_short_circuit wCfg wOracles c4store wInput c4info rfl rfl
    (by decide)
  exact ⟨rfl, h.1, h.2.1⟩

/-- Unfolding of the `safe_name` computation. -/
theorem sanitize_filename_def (filename : String) :
    sanitize_filename filename =
      if pyEndsWith (reSubUnsafe filename) ".md" = true then reSubUnsafe filename
      else pyPathStem (reSubUnsafe filename) ++ ".md" := rfl

/-- Every character of the stem comes from the input. -/
theorem pyPathStem_chars (s : String) :
    ∀ c ∈ (pyPathStem s).data, c ∈ s.data := by
  intro c hc
  unfold pyPathStem at hc
  split at hc
  · simp at hc
  · split at hc
    · split at hc
      · exact List.take_subset _ _ hc
      · exact hc
    · exact hc

/-- C9: the name under which an upload is persisted is
`re.sub(r'[^\w\-_\.]', '_', filename)` with a forced `.md` extension:
no path separator ('/' or '\\') survives into it, it always ends with
`.md`, and `save_uploaded_file` places it under the
`{library}/{version}/` directory of the upload root. -/
theorem C9_sanitized_save (filename library version : String) :
    (∀ c ∈ (sanitize_filename filename).data, c ≠ '/' ∧ c ≠ '\\')
    ∧ pyEndsWith (sanitize_filename filename) ".md" = true
    ∧ save_uploaded_file library version filename
        = ⟨"/app/uploads", library, version, sanitize_filename filename⟩ := by
  refine ⟨?_, ?_, rfl⟩
  · intro c hc
    rw [sanitize_filename_def] at hc
    split at hc
    · obtain ⟨x, _, rfl⟩ := List.mem_map.mp hc
      exact sanitizeChar_not_sep x
    · rcases List.mem_append.mp hc with h | h
      · have := pyPathStem_chars _ _ h
        obtain ⟨x, _, rfl⟩ := List.mem_map.mp this
        exact sanitizeChar_not_sep x
      · constructor <;> (intro hcc; subst hcc; revert h; decide)
  · rw [sanitize_filename_def]
    split
    case isTrue h => exact h
    case isFalse h =>
      unfold pyEndsWith
      exact List.isSuffixOf_iff_suffix.mpr (List.suffix_append _ _)

/-- Witness for C9: a filename with a space, a slash and a foreign
extension is stored with its separators replaced and a forced `.md`
ending. -/
theorem C9_sanitized_save_witness :
    pyEndsWith (sanitize_filename "dir/my file.txt") ".md" = true
    ∧ save_uploaded_file "lib" "v1" "dir/my file.txt"
        = ⟨"/app/uploads", "lib", "v1", sanitize_filename "dir/my file.txt"⟩ :=
  ⟨(C9_sanitized_save "dir/my file.txt" "lib" "v1").2.1,
    (C9_sanitized_save "dir/my file.txt" "lib" "v1").2.2⟩

end SAGE
